import Mathlib

/-!
Verification of the cluster-packing and database-construction layer of the
private vector-search service (packages `search/database` and `main`).

The Go code is embedded shallowly:

* `uint64` / `uint` quantities become `Nat` (all arithmetic in the embedded
  fragment stays far below `2 ^ 64`, except for the `uint64(int8)` conversion,
  which is modelled exactly as a residue modulo `2 ^ 64` by `u64OfInt8`);
* `int8` components become `Int` values;
* the Go map `indexMap` becomes an association list (`List (Nat × Nat)`),
  with `List.lookup` playing the role of map access;
* panics become `Option` / `Except` failures;
* the third-party PIR backend (`lwe.NewParamsFixedP`,
  `pir.NewDatabaseFixedParams`) is out of scope per the specification and is
  abstracted: the parameter object it may return is an input
  (`Option LweParams`) of the embedded builder.

`sort.Slice(clusterIndices, …)` from the Go standard library is embedded by
its contract: it produces a permutation of the indices ordered by the supplied
comparator (here: `NumVectors` descending).  The executable representative
chosen is an insertion sort; the library leaves the relative order of
equal-sized clusters unspecified, and no theorem below about the packing
depends on that order.
-/

set_option maxHeartbeats 1000000

open scoped List

/-- Embeds `database.Cluster`: id, count, dimension, precision and the flat
row-major buffer of quantized `int8` components. -/
structure Cluster where
  index      : Nat
  numVectors : Nat
  dim        : Nat
  precBits   : Nat
  vectors    : List Int
deriving Repr, DecidableEq, Inhabited

/-- Embeds `database.Metadata` (fields `num_vectors`, `dim`, `num_clusters`). -/
structure Metadata where
  numVectors  : Nat
  dim         : Nat
  numClusters : Nat
deriving Repr, DecidableEq, Inhabited

/-- `clusters[i].NumVectors`, the row count of cluster number `i`. -/
def clusterSize (clusters : List Cluster) (i : Nat) : Nat :=
  (clusters.getD i default).numVectors

/-- Insert an index into a list sorted descending by `key`, after every
strictly larger element and before the first element that is not strictly
larger (so an element equal in key to `i` that was already in the list ends
up after `i`). -/
def insertDescBy (key : Nat → Nat) (i : Nat) : List Nat → List Nat
  | [] => [i]
  | j :: rest => if key i < key j then j :: insertDescBy key i rest else i :: j :: rest

/-- Sort a list of indices descending by `key` (stable insertion sort). -/
def sortDescBy (key : Nat → Nat) : List Nat → List Nat
  | [] => []
  | i :: rest => insertDescBy key i (sortDescBy key rest)

/-- Embeds the `sort.Slice(clusterIndices, …)` call of `PackClusters`
(database.go:97-99) by the library's contract: the list `0, …, n-1` of
cluster positions reordered so that `NumVectors` is descending. -/
def sortedIndices (clusters : List Cluster) : List Nat :=
  sortDescBy (clusterSize clusters) (List.range clusters.length)

/-- One first-fit placement step of `PackClusters` (database.go:111-127).
The state is the parallel pair of Go slices `cols` / `col_szs`, fused into a
single list of `(stripe contents, stripe row-count)` pairs.  The cluster id
`idx` of size `sz` goes into the first stripe whose recorded row-count plus
`sz` is strictly below `cap`; if none fits, a new stripe is appended. -/
def place (cap sz idx : Nat) : List (List Nat × Nat) → List (List Nat × Nat)
  | [] => [([idx], sz)]
  | (col, csz) :: rest =>
    if csz + sz < cap then (col ++ [idx], csz + sz) :: rest
    else (col, csz) :: place cap sz idx rest

/-- The body of the placement loop of `PackClusters` for the cluster at
position `i` of the input slice. -/
def packStep (clusters : List Cluster) (cap : Nat) (st : List (List Nat × Nat)) (i : Nat) :
    List (List Nat × Nat) :=
  place cap (clusters.getD i default).numVectors (clusters.getD i default).index st

/-- The packing loop of `PackClusters` run on a given consideration order:
the head cluster opens stripe 0 (after possibly raising the capacity to its
size, database.go:103-109), the rest are placed first-fit.  `none` embeds the
`"No clusters given"` panic. -/
def packFromOrder (clusters : List Cluster) (maxCapacity : Nat) :
    List Nat → Option (List (List Nat) × List Nat)
  | [] => none
  | i0 :: rest =>
    let c0 := clusters.getD i0 default
    let cap := if maxCapacity < c0.numVectors then c0.numVectors else maxCapacity
    let final := rest.foldl (packStep clusters cap) [([c0.index], c0.numVectors)]
    some (final.map Prod.fst, final.map Prod.snd)

/-- Embeds `database.PackClusters` (database.go:85-130). -/
def packClusters (clusters : List Cluster) (maxCapacity : Nat) :
    Option (List (List Nat) × List Nat) :=
  packFromOrder clusters maxCapacity (sortedIndices clusters)

/-- Total row-count of a stripe: the sum of `NumVectors` over the cluster ids
it lists. -/
def stripeWeight (clusters : List Cluster) (stripe : List Nat) : Nat :=
  (stripe.map (clusterSize clusters)).sum

/-- Modelled from the spec: `utils.Max` (package `search/utils`, not under
`src/`), used for `L = max(colRowCounts)` in §4.3 of the specification; the
maximum of a list of naturals (0 for the empty list). -/
def listMax : List Nat → Nat
  | [] => 0
  | x :: rest => max x (listMax rest)

/-- Spec-side first-fit step, following §4.2 step 4 of the specification:
"place it into the first stripe whose current row-count + cluster size is
strictly less than `cap`; if none fits, open a new stripe containing only
this cluster".  The row-count is recomputed from the stripe contents. -/
def specFirstFit (clusters : List Cluster) (cap sz cid : Nat) :
    List (List Nat) → List (List Nat)
  | [] => [[cid]]
  | stripe :: rest =>
    if stripeWeight clusters stripe + sz < cap then (stripe ++ [cid]) :: rest
    else stripe :: specFirstFit clusters cap sz cid rest

/-- Spec-side packer, following the words of §4.2 of the specification:
sort ids by `numVectors` descending; raise `cap` to the largest cluster size
if that exceeds it; start with one stripe holding the largest cluster; place
each remaining cluster first-fit.  Compared against `packClusters` for the
refinement claim. -/
def packClustersSpec (clusters : List Cluster) (cap : Nat) : List (List Nat) :=
  match sortedIndices clusters with
  | [] => []
  | i0 :: rest =>
    let szMax := listMax (clusters.map Cluster.numVectors)
    let cap' := if cap < szMax then szMax else cap
    rest.foldl
      (fun stripes i =>
        specFirstFit clusters cap' (clusterSize clusters i)
          ((clusters.getD i default).index) stripes)
      [[(clusters.getD i0 default).index]]

/-- Every cluster of the list records its own position in its `Index` field,
as `ReadAllClusters` guarantees (database.go:164 passes the loop counter). -/
def IndexedClusters (clusters : List Cluster) : Prop :=
  ∀ i < clusters.length, (clusters.getD i default).index = i

instance (clusters : List Cluster) : Decidable (IndexedClusters clusters) := by
  unfold IndexedClusters; infer_instance

/-- Shape facts `ReadClusterFromCsv` guarantees for each cluster
(database.go:51, 73): the dimension field matches and the flat buffer holds
exactly `NumVectors * dim` components. -/
def WfClusters (clusters : List Cluster) (dim : Nat) : Prop :=
  ∀ cl ∈ clusters, cl.dim = dim ∧ cl.vectors.length = cl.numVectors * dim

instance (clusters : List Cluster) (dim : Nat) : Decidable (WfClusters clusters dim) := by
  unfold WfClusters; infer_instance

/-- Post-condition of a successful `ReadAllClusters` run (database.go:132-181):
one cluster per file with `Index = i`, matching dimension and precision, flat
buffers of the right length, and a total vector count that passed the
`vecCountVeri != numVectors` check. -/
def readAllClustersOk (metadata : Metadata) (clusters : List Cluster) (precBits : Nat) : Prop :=
  clusters.length = metadata.numClusters ∧
  IndexedClusters clusters ∧
  (∀ cl ∈ clusters, cl.precBits = precBits) ∧
  WfClusters clusters metadata.dim ∧
  (clusters.map Cluster.numVectors).sum = metadata.numVectors

instance (metadata : Metadata) (clusters : List Cluster) (precBits : Nat) :
    Decidable (readAllClustersOk metadata clusters precBits) := by
  unfold readAllClustersOk; infer_instance

/-- Embeds the parameter object returned by the backend's
`lwe.NewParamsFixedP` (only the two fields the builder inspects). -/
structure LweParams where
  P    : Nat
  Logq : Nat
deriving Repr, DecidableEq, Inhabited

deriving instance DecidableEq for Except

/-- Embeds `database.DBIndex` (database.go:23-25). -/
def dbIndex (row col m : Nat) : Nat := row * m + col

/-- The Go conversion `uint64(v)` for `v : int8`: sign-extension, i.e. the
two's-complement residue of the signed value modulo `2 ^ 64` (so `-1` maps to
`2 ^ 64 - 1`). -/
def u64OfInt8 (v : Int) : Nat := (v % (2 ^ 64 : Int)).toNat

/-- A single slot assignment `vals[pos] = v` on the database array, modelled
as a function update. -/
def store (vals : Nat → Nat) (pos v : Nat) : Nat → Nat :=
  fun i => if i = pos then v else vals i

/-- The inner lane loop of `BuildVectorDatabase` (database.go:225-227): write
`lanes` consecutive slots of row `row` starting at column `colBase`, taking
components from `vec` starting at offset `base`. -/
def writeVecLanes (m row colBase : Nat) (vec : List Int) (base lanes : Nat)
    (vals : Nat → Nat) : Nat → Nat :=
  (List.range lanes).foldl
    (fun vs j => store vs (dbIndex row (colBase + j) m) (u64OfInt8 (vec.getD (base + j) 0)))
    vals

/-- The row loop of `BuildVectorDatabase` (database.go:224-233) for one
cluster buffer: `n` rows, each of `dim` lanes, starting at `(rowBase, colBase)`. -/
def writeRows (vec : List Int) (dim m rowBase colBase n : Nat) (vals : Nat → Nat) : Nat → Nat :=
  (List.range n).foldl (fun vs x => writeVecLanes m (rowBase + x) colBase vec (x * dim) dim vs) vals

/-- All slot writes performed for one cluster. -/
def writeClusterVals (cl : Cluster) (dim m rowBase colBase : Nat) (vals : Nat → Nat) :
    Nat → Nat :=
  writeRows cl.vectors dim m rowBase colBase cl.numVectors vals

/-- The two panics reachable from the packing loop of `BuildVectorDatabase`:
`"Key should not yet exist"` (database.go:216) and the row-overflow
`"Should not happen"` (database.go:231). -/
inductive BuildError where
  | dupKey
  | rowOverflow
deriving Repr, DecidableEq

/-- The per-stripe body of the packing loop of `BuildVectorDatabase`
(database.go:214-234): for each cluster id in the stripe, check the map for a
duplicate key, record the origin offset, write the cluster's rows, and check
the row counter against `l` after each row (which fires exactly when the
cluster is non-empty and its last row index exceeds `l`). -/
def processStripe (clusters : List Cluster) (dim m l colBase : Nat) :
    List Nat → Nat → (Nat → Nat) → List (Nat × Nat) →
    Except BuildError ((Nat → Nat) × List (Nat × Nat))
  | [], _, vals, imap => .ok (vals, imap)
  | cid :: rest, rowIndex, vals, imap =>
    if (imap.lookup cid).isSome then .error .dupKey
    else
      let cl := clusters.getD cid default
      let imap' := imap ++ [(cid, dbIndex rowIndex colBase m)]
      let vals' := writeClusterVals cl dim m rowIndex colBase vals
      if cl.numVectors ≠ 0 ∧ l < rowIndex + cl.numVectors then .error .rowOverflow
      else processStripe clusters dim m l colBase rest (rowIndex + cl.numVectors) vals' imap'

/-- The outer stripe loop of `BuildVectorDatabase` (database.go:212-235); the
row counter restarts at 0 for each stripe and the stripe's columns start at
`dim * colIndex`. -/
def processCols (clusters : List Cluster) (dim m l : Nat) :
    List (List Nat) → Nat → (Nat → Nat) → List (Nat × Nat) →
    Except BuildError ((Nat → Nat) × List (Nat × Nat))
  | [], _, vals, imap => .ok (vals, imap)
  | stripe :: rest, colIndex, vals, imap =>
    match processStripe clusters dim m l (dim * colIndex) stripe 0 vals imap with
    | .error e => .error e
    | .ok (vals', imap') => processCols clusters dim m l rest (colIndex + 1) vals' imap'

/-- The ways `BuildVectorDatabase` can die: the `PackClusters` panic on an
empty input, the parameter-selection panic (database.go:202-205), and the two
loop panics. -/
inductive BuildFailure where
  | emptyClusters
  | badParams
  | dupKey
  | rowOverflow
deriving Repr, DecidableEq

/-- The state `BuildVectorDatabase` hands to the backend on success:
dimensions `l`, `m`, the populated slot array, the cluster-to-origin map, and
the parameter object it validated (passed through unchanged). -/
structure BuiltDB where
  l        : Nat
  m        : Nat
  vals     : Nat → Nat
  indexMap : List (Nat × Nat)
  params   : LweParams

/-- The parameter-rejection condition of database.go:202: no parameter object,
or `p.P < uint64(1 << precBits)` (the Go shift of the 64-bit constant 1, hence
the residue of `2 ^ precBits` modulo `2 ^ 64`), or `p.Logq != 64`. -/
def paramsRejected (params : Option LweParams) (precBits : Nat) : Prop :=
  match params with
  | none => True
  | some p => p.P < 2 ^ precBits % 2 ^ 64 ∨ p.Logq ≠ 64

instance (params : Option LweParams) (precBits : Nat) :
    Decidable (paramsRejected params precBits) := by
  unfold paramsRejected; cases params <;> infer_instance

/-- Embeds `database.BuildVectorDatabase` (database.go:184-245): pack the
clusters with capacity `hintSz * 125`, set `m = len(cols) * dim` and
`l = max(colSzs)`, validate the backend parameters, then populate the slot
array and the index map.  The backend parameter object is an input because
`lwe.NewParamsFixedP` is outside the embedded core; the final
`pir.NewDatabaseFixedParams` call is likewise outside it. -/
def buildVectorDatabase (metadata : Metadata) (clusters : List Cluster)
    (hintSz precBits : Nat) (params : Option LweParams) : Except BuildFailure BuiltDB :=
  let dim := metadata.dim
  match packClusters clusters (hintSz * 125) with
  | none => .error .emptyClusters
  | some (cols, colSzs) =>
    let m := cols.length * dim
    let l := listMax colSzs
    match params with
    | none => .error .badParams
    | some p =>
      if p.P < 2 ^ precBits % 2 ^ 64 ∨ p.Logq ≠ 64 then .error .badParams
      else
        match processCols clusters dim m l cols 0 (fun _ => 0) [] with
        | .error .dupKey => .error .dupKey
        | .error .rowOverflow => .error .rowOverflow
        | .ok st => .ok ⟨l, m, st.1, st.2, p⟩

/-- The decidable projection of `buildVectorDatabase`: everything but the slot
array. -/
def buildSummary (metadata : Metadata) (clusters : List Cluster)
    (hintSz precBits : Nat) (params : Option LweParams) :
    Except BuildFailure (Nat × Nat × List (Nat × Nat) × LweParams) :=
  (buildVectorDatabase metadata clusters hintSz precBits params).map
    (fun db => (db.l, db.m, db.indexMap, db.params))

/-- The slot array produced by `buildVectorDatabase`, read at one index
(0 when construction failed). -/
def buildValsAt (metadata : Metadata) (clusters : List Cluster)
    (hintSz precBits : Nat) (params : Option LweParams) (idx : Nat) : Nat :=
  match buildVectorDatabase metadata clusters hintSz precBits params with
  | .ok db => db.vals idx
  | .error _ => 0

/-- The value a single cluster placed at origin `(rowBase, colBase)`
contributes to slot `idx` of the `l × m` array, if any: the slot's row must
lie in the cluster's row range and its column in the stripe's `dim` columns. -/
def clusterVal (cl : Cluster) (dim m rowBase colBase idx : Nat) : Option Nat :=
  if rowBase ≤ idx / m ∧ idx / m < rowBase + cl.numVectors ∧
      colBase ≤ idx % m ∧ idx % m < colBase + dim then
    some (u64OfInt8 (cl.vectors.getD ((idx / m - rowBase) * dim + (idx % m - colBase)) 0))
  else none

/-- The value a stripe (clusters stacked from row `rowBase`) contributes to
slot `idx`, if any. -/
def stripeVal (clusters : List Cluster) (dim m colBase : Nat) :
    List Nat → Nat → Nat → Option Nat
  | [], _, _ => none
  | cid :: rest, rowBase, idx =>
    let cl := clusters.getD cid default
    match clusterVal cl dim m rowBase colBase idx with
    | some v => some v
    | none => stripeVal clusters dim m colBase rest (rowBase + cl.numVectors) idx

/-- The value the whole packed layout assigns to slot `idx`, if any cluster's
range covers it. -/
def dbVal (clusters : List Cluster) (dim m : Nat) :
    List (List Nat) → Nat → Nat → Option Nat
  | [], _, _ => none
  | stripe :: rest, colIndex, idx =>
    match stripeVal clusters dim m (dim * colIndex) stripe 0 idx with
    | some v => some v
    | none => dbVal clusters dim m rest (colIndex + 1) idx

/-- The index-map entries one stripe contributes, with their origin offsets. -/
def stripeEntries (clusters : List Cluster) (m colBase : Nat) :
    List Nat → Nat → List (Nat × Nat)
  | [], _ => []
  | cid :: rest, rowBase =>
    (cid, dbIndex rowBase colBase m) ::
      stripeEntries clusters m colBase rest (rowBase + (clusters.getD cid default).numVectors)

/-- The index-map entries of the whole layout, stripe by stripe. -/
def colsEntries (clusters : List Cluster) (dim m : Nat) :
    List (List Nat) → Nat → List (Nat × Nat)
  | [], _ => []
  | stripe :: rest, colIndex =>
    stripeEntries clusters m (dim * colIndex) stripe 0 ++
      colsEntries clusters dim m rest (colIndex + 1)

/-- Concatenation of all stripes of a layout. -/
def flatCols (cols : List (List Nat)) : List Nat :=
  cols.foldr (fun col acc => col ++ acc) []

/-- Number of rows occupied before position `k` of a stripe. -/
def rowsBefore (clusters : List Cluster) (stripe : List Nat) (k : Nat) : Nat :=
  stripeWeight clusters (stripe.take k)

/-- Embeds `protocol.VectorScore` as consumed by `writeResults` (main.go:88-89). -/
structure VectorScore where
  clusterID       : Nat
  idWithinCluster : Nat
deriving Repr, DecidableEq, Inhabited

/-- Embeds `writeResults` (main.go:78-94) up to its first fallible step: it
panics on an empty score list before writing anything, and otherwise emits
one row of `2 * min(k, len(scores))` cells alternating cluster id and
id-within-cluster. -/
def writeResults (scores : List VectorScore) (k : Nat) : Option (List Nat) :=
  if scores.length = 0 then none
  else
    let numRes := if scores.length < k then scores.length else k
    some ((List.range numRes).foldl
      (fun line i =>
        line ++ [(scores.getD i default).clusterID, (scores.getD i default).idWithinCluster])
      [])

/-- A list ordered weakly descending by `key`. -/
def DescendingBy (key : Nat → Nat) (l : List Nat) : Prop :=
  l.Pairwise (fun a b => key b ≤ key a)

/-- Concrete data: three 2-dimensional clusters (sizes 2, 1, 1) with mixed
signs, as produced by `ReadAllClusters` on a matching input. -/
def exCluster0 : Cluster := ⟨0, 2, 2, 5, [1, -1, 2, 3]⟩

def exCluster1 : Cluster := ⟨1, 1, 2, 5, [-4, 5]⟩

def exCluster2 : Cluster := ⟨2, 1, 2, 5, [0, 7]⟩

def exClusters : List Cluster := [exCluster0, exCluster1, exCluster2]

def exMetadata : Metadata := ⟨4, 2, 3⟩

def exParams : LweParams := ⟨32768, 64⟩

/-- Concrete data: a single one-dimensional cluster holding the single
component `-1`. -/
def negCluster : Cluster := ⟨0, 1, 1, 3, [-1]⟩

def negClusters : List Cluster := [negCluster]

def negMetadata : Metadata := ⟨1, 1, 1⟩

theorem insertDescBy_perm (key : Nat → Nat) (i : Nat) (l : List Nat) :
    insertDescBy key i l ~ i :: l := by
  induction l with
  | nil => simp [insertDescBy]
  | cons j rest ih =>
    simp only [insertDescBy]
    by_cases h : key i < key j
    · rw [if_pos h]
      calc j :: insertDescBy key i rest ~ j :: i :: rest := .cons j ih
        _ ~ i :: j :: rest := .swap ..
    · rw [if_neg h]

theorem sortDescBy_perm (key : Nat → Nat) (l : List Nat) : sortDescBy key l ~ l := by
  induction l with
  | nil => simp [sortDescBy]
  | cons i rest ih =>
    calc sortDescBy key (i :: rest) = insertDescBy key i (sortDescBy key rest) := rfl
      _ ~ i :: sortDescBy key rest := insertDescBy_perm ..
      _ ~ i :: rest := .cons i ih

theorem insertDescBy_mem (key : Nat → Nat) (i : Nat) (l : List Nat) (x : Nat) :
    x ∈ insertDescBy key i l ↔ x = i ∨ x ∈ l := by
  rw [(insertDescBy_perm key i l).mem_iff]
  simp

theorem insertDescBy_pairwise (key : Nat → Nat) (i : Nat) (l : List Nat)
    (h : DescendingBy key l) : DescendingBy key (insertDescBy key i l) := by
  induction l with
  | nil => simp [insertDescBy, DescendingBy]
  | cons j rest ih =>
    rw [DescendingBy, List.pairwise_cons] at h
    obtain ⟨hj, hrest⟩ := h
    simp only [insertDescBy]
    by_cases hc : key i < key j
    · rw [if_pos hc, DescendingBy, List.pairwise_cons]
      refine ⟨?_, ih hrest⟩
      intro x hx
      rcases (insertDescBy_mem key i rest x).mp hx with rfl | hx
      · exact Nat.le_of_lt hc
      · exact hj x hx
    · rw [if_neg hc, DescendingBy, List.pairwise_cons]
      push_neg at hc
      refine ⟨?_, List.pairwise_cons.mpr ⟨hj, hrest⟩⟩
      intro x hx
      rcases List.mem_cons.mp hx with rfl | hx
      · exact hc
      · exact le_trans (hj x hx) hc

theorem sortDescBy_pairwise (key : Nat → Nat) (l : List Nat) :
    DescendingBy key (sortDescBy key l) := by
  induction l with
  | nil => simp [sortDescBy, DescendingBy]
  | cons i rest ih => exact insertDescBy_pairwise key i _ ih

theorem sortedIndices_perm (clusters : List Cluster) :
    sortedIndices clusters ~ List.range clusters.length := sortDescBy_perm ..

theorem sortedIndices_desc (clusters : List Cluster) :
    DescendingBy (clusterSize clusters) (sortedIndices clusters) := sortDescBy_pairwise ..

theorem sortedIndices_eq_nil_iff (clusters : List Cluster) :
    sortedIndices clusters = [] ↔ clusters = [] := by
  constructor
  · intro h
    have hl := (sortedIndices_perm clusters).length_eq
    rw [h] at hl
    simp only [List.length_nil, List.length_range] at hl
    exact List.length_eq_zero.mp hl.symm
  · rintro rfl; rfl

theorem sortedIndices_head_max (clusters : List Cluster) (i0 : Nat) (rest : List Nat)
    (h : sortedIndices clusters = i0 :: rest) :
    ∀ x ∈ List.range clusters.length, clusterSize clusters x ≤ clusterSize clusters i0 := by
  intro x hx
  have hmem : x ∈ i0 :: rest := by
    rw [← h]
    exact ((sortedIndices_perm clusters).mem_iff).mpr hx
  rcases List.mem_cons.mp hmem with rfl | hmem
  · exact le_refl _
  · have hp := sortedIndices_desc clusters
    rw [h, DescendingBy, List.pairwise_cons] at hp
    exact hp.1 x hmem

theorem map_eq_map_range (f : Cluster → Nat) (clusters : List Cluster) :
    clusters.map f
      = (List.range clusters.length).map (fun i => f (clusters.getD i default)) := by
  induction clusters with
  | nil => rfl
  | cons c rest ih =>
    have h2 : (List.range rest.length).map ((fun i => f ((c :: rest).getD i default)) ∘ Nat.succ)
        = (List.range rest.length).map (fun i => f (rest.getD i default)) := by
      apply List.map_congr_left
      intro a _
      simp [Function.comp, List.getD_cons_succ]
    calc (c :: rest).map f = f c :: rest.map f := rfl
      _ = f c :: (List.range rest.length).map (fun i => f (rest.getD i default)) := by rw [ih]
      _ = _ := by
          rw [List.length_cons, List.range_succ_eq_map, List.map_cons, List.map_map, h2]
          rfl

theorem map_numVectors_range (clusters : List Cluster) :
    clusters.map Cluster.numVectors
      = (List.range clusters.length).map (clusterSize clusters) :=
  map_eq_map_range Cluster.numVectors clusters

theorem stripeWeight_append (clusters : List Cluster) (s t : List Nat) :
    stripeWeight clusters (s ++ t) = stripeWeight clusters s + stripeWeight clusters t := by
  simp [stripeWeight]

theorem place_map_snd_sum (cap sz idx : Nat) (st : List (List Nat × Nat)) :
    ((place cap sz idx st).map Prod.snd).sum = (st.map Prod.snd).sum + sz := by
  induction st with
  | nil => simp [place]
  | cons p rest ih =>
    obtain ⟨col, csz⟩ := p
    simp only [place]
    by_cases h : csz + sz < cap
    · rw [if_pos h]
      simp only [List.map_cons, List.sum_cons]
      omega
    · rw [if_neg h]
      simp only [List.map_cons, List.sum_cons, ih]
      omega

theorem place_weight_inv (clusters : List Cluster) (cap sz idx : Nat)
    (st : List (List Nat × Nat))
    (hinv : ∀ p ∈ st, p.2 = stripeWeight clusters p.1)
    (hsz : clusterSize clusters idx = sz) :
    ∀ p ∈ place cap sz idx st, p.2 = stripeWeight clusters p.1 := by
  induction st with
  | nil =>
    intro p hp
    simp only [place, List.mem_singleton] at hp
    subst hp
    simp [stripeWeight, hsz]
  | cons q rest ih =>
    obtain ⟨col, csz⟩ := q
    intro p hp
    have hq := hinv (col, csz) (List.mem_cons_self ..)
    simp only [place] at hp
    by_cases h : csz + sz < cap
    · rw [if_pos h] at hp
      rcases List.mem_cons.mp hp with rfl | hp
      · simp only [stripeWeight_append]
        simp only at hq
        rw [hq]
        simp [stripeWeight, hsz]
      · exact hinv p (List.mem_cons_of_mem _ hp)
    · rw [if_neg h] at hp
      rcases List.mem_cons.mp hp with rfl | hp
      · exact hq
      · exact ih (fun r hr => hinv r (List.mem_cons_of_mem _ hr)) p hp

theorem place_count (cap sz idx y : Nat) (st : List (List Nat × Nat)) :
    ((place cap sz idx st).map (fun p => p.1.count y)).sum
      = (st.map (fun p => p.1.count y)).sum + List.count y [idx] := by
  induction st with
  | nil => simp [place]
  | cons q rest ih =>
    obtain ⟨col, csz⟩ := q
    simp only [place]
    by_cases h : csz + sz < cap
    · rw [if_pos h]
      simp only [List.map_cons, List.sum_cons, List.count_append]
      omega
    · rw [if_neg h]
      simp only [List.map_cons, List.sum_cons, ih]
      omega

theorem le_listMax (l : List Nat) : ∀ x ∈ l, x ≤ listMax l := by
  induction l with
  | nil => simp
  | cons a rest ih =>
    intro x hx
    rcases List.mem_cons.mp hx with rfl | hx
    · simp [listMax]
    · exact le_trans (ih x hx) (by simp [listMax])

theorem listMax_mem (l : List Nat) (h : l ≠ []) : listMax l ∈ l := by
  induction l with
  | nil => exact absurd rfl h
  | cons a rest ih =>
    by_cases hr : rest = []
    · subst hr; simp [listMax]
    · rcases Nat.le_total a (listMax rest) with hle | hle
      · rw [List.mem_cons]
        right
        rw [show listMax (a :: rest) = listMax rest from Nat.max_eq_right hle]
        exact ih hr
      · rw [List.mem_cons]
        left
        rw [show listMax (a :: rest) = max a (listMax rest) from rfl]
        exact Nat.max_eq_left hle

theorem count_cons_eq (y a : Nat) (l : List Nat) :
    (a :: l).count y = l.count y + List.count y [a] := by
  simp [List.count_cons]

theorem packFold_weight_inv (clusters : List Cluster) (cap : Nat) (order : List Nat)
    (st : List (List Nat × Nat))
    (hidx : ∀ i ∈ order, (clusters.getD i default).index = i)
    (hinv : ∀ p ∈ st, p.2 = stripeWeight clusters p.1) :
    ∀ p ∈ order.foldl (packStep clusters cap) st, p.2 = stripeWeight clusters p.1 := by
  induction order generalizing st with
  | nil => exact hinv
  | cons i rest ih =>
    simp only [List.foldl_cons]
    have hsz : clusterSize clusters ((clusters.getD i default).index)
        = (clusters.getD i default).numVectors := by
      rw [hidx i (List.mem_cons_self ..)]
      rfl
    exact ih _ (fun j hj => hidx j (List.mem_cons_of_mem _ hj))
      (place_weight_inv clusters cap _ _ st hinv hsz)

theorem packFold_snd_sum (clusters : List Cluster) (cap : Nat) (order : List Nat)
    (st : List (List Nat × Nat)) :
    ((order.foldl (packStep clusters cap) st).map Prod.snd).sum
      = (st.map Prod.snd).sum + (order.map (clusterSize clusters)).sum := by
  induction order generalizing st with
  | nil => simp
  | cons i rest ih =>
    simp only [List.foldl_cons, List.map_cons, List.sum_cons]
    rw [ih]
    simp only [packStep]
    rw [place_map_snd_sum]
    have h : clusterSize clusters i = (clusters.getD i default).numVectors := rfl
    omega

theorem packFold_count (clusters : List Cluster) (cap : Nat) (order : List Nat)
    (st : List (List Nat × Nat)) (y : Nat) :
    ((order.foldl (packStep clusters cap) st).map (fun p => p.1.count y)).sum
      = (st.map (fun p => p.1.count y)).sum
        + (order.map (fun i => (clusters.getD i default).index)).count y := by
  induction order generalizing st with
  | nil => simp
  | cons i rest ih =>
    simp only [List.foldl_cons, List.map_cons]
    rw [ih]
    simp only [packStep]
    rw [place_count]
    have hc := count_cons_eq y ((clusters.getD i default).index)
      (rest.map (fun i => (clusters.getD i default).index))
    omega

theorem place_ne_nil (cap sz idx : Nat) (st : List (List Nat × Nat)) :
    place cap sz idx st ≠ [] := by
  cases st with
  | nil => simp [place]
  | cons q rest =>
    obtain ⟨col, csz⟩ := q
    simp only [place]
    split <;> simp

theorem headD_append_ne_nil (col t : List Nat) (h : col ≠ []) :
    (col ++ t).headD 0 = col.headD 0 := by
  cases col with
  | nil => exact absurd rfl h
  | cons a r => rfl

theorem place_head_struct (cap sz idx : Nat) (col : List Nat) (csz : Nat)
    (rest : List (List Nat × Nat)) :
    ∃ col' csz' rest',
      place cap sz idx ((col, csz) :: rest) = (col', csz') :: rest' ∧
        (col' = col ∨ col' = col ++ [idx]) := by
  simp only [place]
  split
  · exact ⟨col ++ [idx], csz + sz, rest, rfl, Or.inr rfl⟩
  · exact ⟨col, csz, place cap sz idx rest, rfl, Or.inl rfl⟩

theorem packFold_head (clusters : List Cluster) (cap : Nat) (order : List Nat)
    (st : List (List Nat × Nat)) (x : Nat)
    (h : ∃ col₀ csz₀ rest₀, st = (col₀, csz₀) :: rest₀ ∧ col₀ ≠ [] ∧ col₀.headD 0 = x) :
    ∃ col₀ csz₀ rest₀, order.foldl (packStep clusters cap) st = (col₀, csz₀) :: rest₀ ∧
      col₀ ≠ [] ∧ col₀.headD 0 = x := by
  induction order generalizing st with
  | nil => exact h
  | cons i rest ih =>
    obtain ⟨col₀, csz₀, rest₀, rfl, hne, hhd⟩ := h
    simp only [List.foldl_cons, packStep]
    obtain ⟨col', csz', rest', heq, hcol⟩ :=
      place_head_struct cap (clusters.getD i default).numVectors
        (clusters.getD i default).index col₀ csz₀ rest₀
    rw [heq]
    apply ih
    refine ⟨col', csz', rest', rfl, ?_, ?_⟩
    · rcases hcol with rfl | rfl
      · exact hne
      · simp
    · rcases hcol with rfl | rfl
      · exact hhd
      · rw [headD_append_ne_nil col₀ _ hne]
        exact hhd

theorem packClusters_destruct (clusters : List Cluster) (cap : Nat)
    (cols : List (List Nat)) (colSzs : List Nat)
    (hpack : packClusters clusters cap = some (cols, colSzs)) :
    ∃ i0 rest cap',
      sortedIndices clusters = i0 :: rest ∧
      cap' = (if cap < (clusters.getD i0 default).numVectors
          then (clusters.getD i0 default).numVectors else cap) ∧
      cols = (rest.foldl (packStep clusters cap')
          [([(clusters.getD i0 default).index],
            (clusters.getD i0 default).numVectors)]).map Prod.fst ∧
      colSzs = (rest.foldl (packStep clusters cap')
          [([(clusters.getD i0 default).index],
            (clusters.getD i0 default).numVectors)]).map Prod.snd := by
  cases hs : sortedIndices clusters with
  | nil =>
    simp only [packClusters, hs, packFromOrder] at hpack
    exact absurd hpack (by simp)
  | cons i0 rest =>
    simp only [packClusters, hs, packFromOrder, Option.some.injEq, Prod.mk.injEq] at hpack
    obtain ⟨h1, h2⟩ := hpack
    exact ⟨i0, rest, _, rfl, rfl, h1.symm, h2.symm⟩

theorem sorted_mem_lt (clusters : List Cluster) (i0 : Nat) (rest : List Nat)
    (hs : sortedIndices clusters = i0 :: rest) :
    ∀ i ∈ i0 :: rest, i < clusters.length := by
  intro i hi
  have hi' : i ∈ sortedIndices clusters := by rw [hs]; exact hi
  exact List.mem_range.mp ((sortedIndices_perm clusters).subset hi')

theorem init_weight_inv (clusters : List Cluster) (i0 : Nat)
    (hidx : (clusters.getD i0 default).index = i0) :
    ∀ p ∈ [([(clusters.getD i0 default).index], (clusters.getD i0 default).numVectors)],
      p.2 = stripeWeight clusters p.1 := by
  intro p hp
  simp only [List.mem_singleton] at hp
  subst hp
  simp only [stripeWeight, List.map_cons, List.map_nil, List.sum_cons, List.sum_nil]
  have h : clusterSize clusters ((clusters.getD i0 default).index)
      = (clusters.getD i0 default).numVectors := by
    rw [hidx]; rfl
  omega

theorem pack_conservation_aux (metadata : Metadata) (clusters : List Cluster)
    (cap precBits : Nat) (cols : List (List Nat)) (colSzs : List Nat)
    (hIdx : IndexedClusters clusters)
    (hpack : packClusters clusters cap = some (cols, colSzs)) :
    (∀ c < cols.length, colSzs.getD c 0 = stripeWeight clusters (cols.getD c [])) ∧
    colSzs.sum = (clusters.map Cluster.numVectors).sum ∧
    (readAllClustersOk metadata clusters precBits → colSzs.sum = metadata.numVectors) := by
  obtain ⟨i0, rest, cap', hs, hcap, hcols, hszs⟩ :=
    packClusters_destruct clusters cap cols colSzs hpack
  have hlt := sorted_mem_lt clusters i0 rest hs
  have hidx' : ∀ i ∈ i0 :: rest, (clusters.getD i default).index = i :=
    fun i hi => hIdx i (hlt i hi)
  have hinv0 := init_weight_inv clusters i0 (hidx' i0 (List.mem_cons_self ..))
  have hinv := packFold_weight_inv clusters cap' rest _
    (fun j hj => hidx' j (List.mem_cons_of_mem _ hj)) hinv0
  have hsum : colSzs.sum = (clusters.map Cluster.numVectors).sum := by
    have hperm : ((i0 :: rest).map (clusterSize clusters)).sum
        = ((List.range clusters.length).map (clusterSize clusters)).sum := by
      apply List.Perm.sum_eq
      apply List.Perm.map
      rw [← hs]
      exact sortedIndices_perm clusters
    have h2 : (clusters.map Cluster.numVectors).sum
        = ((List.range clusters.length).map (clusterSize clusters)).sum := by
      rw [map_numVectors_range]
    rw [hszs, packFold_snd_sum]
    simp only [List.map_cons, List.map_nil, List.sum_cons, List.sum_nil] at *
    have hk : clusterSize clusters i0 = (clusters.getD i0 default).numVectors := rfl
    omega
  refine ⟨?_, hsum, fun hok => by rw [hsum]; exact hok.2.2.2.2⟩
  intro c hc
  have hlen : (rest.foldl (packStep clusters cap')
      [([(clusters.getD i0 default).index],
        (clusters.getD i0 default).numVectors)]).length = cols.length := by
    rw [hcols, List.length_map]
  have hc' : c < (rest.foldl (packStep clusters cap')
      [([(clusters.getD i0 default).index],
        (clusters.getD i0 default).numVectors)]).length := by
    omega
  have h1 : colSzs.getD c 0 = ((rest.foldl (packStep clusters cap')
      [([(clusters.getD i0 default).index],
        (clusters.getD i0 default).numVectors)])[c]).2 := by
    rw [hszs, List.getD_eq_getElem _ _ (by simpa using hc')]
    simp
  have h2 : cols.getD c [] = ((rest.foldl (packStep clusters cap')
      [([(clusters.getD i0 default).index],
        (clusters.getD i0 default).numVectors)])[c]).1 := by
    rw [hcols, List.getD_eq_getElem _ _ (by simpa using hc')]
    simp
  rw [h1, h2]
  exact hinv _ (List.getElem_mem ..)

theorem packClusters_count (clusters : List Cluster) (cap : Nat)
    (cols : List (List Nat)) (colSzs : List Nat)
    (hpack : packClusters clusters cap = some (cols, colSzs)) (y : Nat) :
    (cols.map (fun col => col.count y)).sum = (clusters.map Cluster.index).count y := by
  obtain ⟨i0, rest, cap', hs, hcap, hcols, hszs⟩ :=
    packClusters_destruct clusters cap cols colSzs hpack
  rw [hcols, List.map_map]
  have hfc := packFold_count clusters cap' rest
    [([(clusters.getD i0 default).index], (clusters.getD i0 default).numVectors)] y
  simp only [Function.comp_def]
  rw [hfc]
  simp only [List.map_cons, List.map_nil, List.sum_cons, List.sum_nil]
  have hmi : clusters.map Cluster.index
      = (List.range clusters.length).map (fun i => (clusters.getD i default).index) :=
    map_eq_map_range Cluster.index clusters
  have hpc : ((i0 :: rest).map (fun i => (clusters.getD i default).index)).count y
      = ((List.range clusters.length).map (fun i => (clusters.getD i default).index)).count y := by
    apply List.Perm.count_eq
    apply List.Perm.map
    rw [← hs]
    exact sortedIndices_perm clusters
  have hcc := count_cons_eq y ((clusters.getD i0 default).index)
    (rest.map (fun i => (clusters.getD i default).index))
  simp only [List.map_cons] at hpc
  rw [hmi]
  omega

theorem specFirstFit_eq_place_map (clusters : List Cluster) (cap sz idx : Nat)
    (st : List (List Nat × Nat))
    (hinv : ∀ p ∈ st, p.2 = stripeWeight clusters p.1) :
    specFirstFit clusters cap sz idx (st.map Prod.fst) = (place cap sz idx st).map Prod.fst := by
  induction st with
  | nil => rfl
  | cons q rest ih =>
    obtain ⟨col, csz⟩ := q
    have hq : csz = stripeWeight clusters col := hinv (col, csz) (List.mem_cons_self ..)
    simp only [List.map_cons, specFirstFit, place]
    rw [← hq]
    by_cases h : csz + sz < cap
    · rw [if_pos h, if_pos h]
      simp
    · rw [if_neg h, if_neg h]
      simp only [List.map_cons]
      rw [ih (fun r hr => hinv r (List.mem_cons_of_mem _ hr))]

theorem specFold_eq_fold (clusters : List Cluster) (cap : Nat) (order : List Nat)
    (st : List (List Nat × Nat))
    (hidx : ∀ i ∈ order, (clusters.getD i default).index = i)
    (hinv : ∀ p ∈ st, p.2 = stripeWeight clusters p.1) :
    order.foldl
      (fun stripes i =>
        specFirstFit clusters cap (clusterSize clusters i)
          ((clusters.getD i default).index) stripes)
      (st.map Prod.fst)
      = (order.foldl (packStep clusters cap) st).map Prod.fst := by
  induction order generalizing st with
  | nil => rfl
  | cons i rest ih =>
    simp only [List.foldl_cons]
    rw [specFirstFit_eq_place_map clusters cap (clusterSize clusters i)
      ((clusters.getD i default).index) st hinv]
    have hsz : clusterSize clusters ((clusters.getD i default).index)
        = (clusters.getD i default).numVectors := by
      rw [hidx i (List.mem_cons_self ..)]
      rfl
    have hrw : (place cap (clusterSize clusters i) ((clusters.getD i default).index) st)
        = packStep clusters cap st i := rfl
    rw [hrw]
    exact ih _ (fun j hj => hidx j (List.mem_cons_of_mem _ hj))
      (place_weight_inv clusters cap _ _ st hinv hsz)

/-- Claim C2: `PackClusters` implements first-fit-decreasing exactly as §4.2
describes it: its output coincides with the spec-side packer (descending
order, capacity raised to the largest cluster when needed, first stripe
opened with the largest cluster, first fit under the strict `<` test, new
stripe when nothing fits), the returned row counts are the stripe weights,
and the consideration order is a permutation of the cluster positions sorted
descending by `numVectors`. -/
theorem packClusters_first_fit_decreasing (clusters : List Cluster) (cap : Nat)
    (cols : List (List Nat)) (colSzs : List Nat)
    (hIdx : IndexedClusters clusters)
    (hpack : packClusters clusters cap = some (cols, colSzs)) :
    cols = packClustersSpec clusters cap ∧
    colSzs = cols.map (stripeWeight clusters) ∧
    sortedIndices clusters ~ List.range clusters.length ∧
    DescendingBy (clusterSize clusters) (sortedIndices clusters) := by
  obtain ⟨i0, rest, cap', hs, hcap, hcols, hszs⟩ :=
    packClusters_destruct clusters cap cols colSzs hpack
  have hlt := sorted_mem_lt clusters i0 rest hs
  have hidx' : ∀ i ∈ i0 :: rest, (clusters.getD i default).index = i :=
    fun i hi => hIdx i (hlt i hi)
  have hinv0 := init_weight_inv clusters i0 (hidx' i0 (List.mem_cons_self ..))
  have hne : clusters ≠ [] := by
    intro h
    rw [(sortedIndices_eq_nil_iff clusters).mpr h] at hs
    exact List.noConfusion hs
  have hi0lt : i0 < clusters.length := hlt i0 (List.mem_cons_self ..)
  have hmax : (clusters.getD i0 default).numVectors
      = listMax (clusters.map Cluster.numVectors) := by
    apply Nat.le_antisymm
    · apply le_listMax
      have hmem : clusters.getD i0 default ∈ clusters := by
        rw [List.getD_eq_getElem _ _ hi0lt]
        exact List.getElem_mem ..
      exact List.mem_map_of_mem _ hmem
    · have hmm : listMax (clusters.map Cluster.numVectors) ∈ clusters.map Cluster.numVectors := by
        apply listMax_mem
        simp [hne]
      obtain ⟨cl, hcl, hv⟩ := List.mem_map.mp hmm
      obtain ⟨p, hp, hpe⟩ := List.mem_iff_getElem.mp hcl
      have hsz : clusterSize clusters p = cl.numVectors := by
        rw [clusterSize, List.getD_eq_getElem _ _ hp, hpe]
      have hle := sortedIndices_head_max clusters i0 rest hs p (List.mem_range.mpr hp)
      rw [hsz, hv] at hle
      exact hle
  refine ⟨?_, ?_, sortedIndices_perm clusters, sortedIndices_desc clusters⟩
  · have hspec : packClustersSpec clusters cap
        = rest.foldl
            (fun stripes i =>
              specFirstFit clusters cap' (clusterSize clusters i)
                ((clusters.getD i default).index) stripes)
            [[(clusters.getD i0 default).index]] := by
      simp only [packClustersSpec, hs]
      rw [← hmax, ← hcap]
    rw [hcols, hspec]
    have hst : [[(clusters.getD i0 default).index]]
        = ([([(clusters.getD i0 default).index],
            (clusters.getD i0 default).numVectors)]).map Prod.fst := rfl
    rw [hst]
    exact (specFold_eq_fold clusters cap' rest _
      (fun j hj => hidx' j (List.mem_cons_of_mem _ hj)) hinv0).symm
  · have hinv := packFold_weight_inv clusters cap' rest _
      (fun j hj => hidx' j (List.mem_cons_of_mem _ hj)) hinv0
    rw [hszs, hcols, List.map_map]
    apply List.map_congr_left
    intro p hp
    exact hinv p hp

/-- Claim C10: `PackClusters` rejects (panics on) the empty cluster list, and
on every non-empty list returns at least one stripe whose first entry is the
id of a cluster of maximal `numVectors`. -/
theorem packClusters_empty_none_and_max_head (clusters : List Cluster) (cap : Nat)
    (hne : clusters ≠ []) (hIdx : IndexedClusters clusters) :
    packClusters [] cap = none ∧
    ∃ cols colSzs, packClusters clusters cap = some (cols, colSzs) ∧ cols ≠ [] ∧
      ∃ cid, (cols.headD []).headD 0 = cid ∧
        ∀ cl ∈ clusters, cl.numVectors ≤ (clusters.getD cid default).numVectors := by
  refine ⟨rfl, ?_⟩
  have hpair : ∃ colsSzs, packClusters clusters cap = some colsSzs := by
    cases hs : sortedIndices clusters with
    | nil => exact absurd ((sortedIndices_eq_nil_iff clusters).mp hs) hne
    | cons i0 rest =>
      simp only [packClusters, hs, packFromOrder]
      exact ⟨_, rfl⟩
  obtain ⟨⟨cols, colSzs⟩, hpack⟩ := hpair
  obtain ⟨i0, rest, cap', hs, hcap, hcols, hszs⟩ :=
    packClusters_destruct clusters cap cols colSzs hpack
  have hlt := sorted_mem_lt clusters i0 rest hs
  have hidx' : ∀ i ∈ i0 :: rest, (clusters.getD i default).index = i :=
    fun i hi => hIdx i (hlt i hi)
  have hhd0 : (clusters.getD i0 default).index = i0 := hidx' i0 (List.mem_cons_self ..)
  obtain ⟨col₀, csz₀, rest₀, hfin, hcne, hhd⟩ :=
    packFold_head clusters cap' rest
      [([(clusters.getD i0 default).index], (clusters.getD i0 default).numVectors)]
      ((clusters.getD i0 default).index)
      ⟨[(clusters.getD i0 default).index], (clusters.getD i0 default).numVectors, [],
        rfl, by simp, rfl⟩
  refine ⟨cols, colSzs, hpack, ?_, i0, ?_, ?_⟩
  · rw [hcols, hfin]
    simp
  · rw [hcols, hfin]
    simp only [List.map_cons, List.headD_cons]
    rw [hhd, hhd0]
  · intro cl hcl
    obtain ⟨p, hp, hpe⟩ := List.mem_iff_getElem.mp hcl
    have hsz : clusterSize clusters p = cl.numVectors := by
      rw [clusterSize, List.getD_eq_getElem _ _ hp, hpe]
    have hle := sortedIndices_head_max clusters i0 rest hs p (List.mem_range.mpr hp)
    rw [hsz] at hle
    exact hle

/-- Claim C3: for every non-empty cluster list, the packing conserves row
counts: each `colSzs[c]` is the total `numVectors` of the clusters listed in
`cols[c]`, the `colSzs` sum to the total vector count of the input clusters,
and (after a successful `ReadAllClusters`) that total equals
`metadata.numVectors`. -/
theorem packClusters_conservation (metadata : Metadata) (clusters : List Cluster)
    (cap precBits : Nat) (cols : List (List Nat)) (colSzs : List Nat)
    (hIdx : IndexedClusters clusters)
    (hpack : packClusters clusters cap = some (cols, colSzs)) :
    (∀ c < cols.length, colSzs.getD c 0 = stripeWeight clusters (cols.getD c [])) ∧
    colSzs.sum = (clusters.map Cluster.numVectors).sum ∧
    (readAllClustersOk metadata clusters precBits → colSzs.sum = metadata.numVectors) :=
  pack_conservation_aux metadata clusters cap precBits cols colSzs hIdx hpack

theorem map_index_eq_range (clusters : List Cluster) (hIdx : IndexedClusters clusters) :
    clusters.map Cluster.index = List.range clusters.length := by
  rw [map_eq_map_range]
  have h : ∀ a ∈ List.range clusters.length, (clusters.getD a default).index = a :=
    fun a ha => hIdx a (List.mem_range.mp ha)
  calc (List.range clusters.length).map (fun i => (clusters.getD i default).index)
      = (List.range clusters.length).map id := List.map_congr_left h
    _ = List.range clusters.length := List.map_id _

theorem pack_lengths_eq (clusters : List Cluster) (cap : Nat)
    (cols : List (List Nat)) (colSzs : List Nat)
    (hpack : packClusters clusters cap = some (cols, colSzs)) :
    colSzs.length = cols.length := by
  obtain ⟨i0, rest, cap', hs, hcap, hcols, hszs⟩ :=
    packClusters_destruct clusters cap cols colSzs hpack
  rw [hcols, hszs, List.length_map, List.length_map]

theorem pack_weights_le (clusters : List Cluster) (cap : Nat)
    (cols : List (List Nat)) (colSzs : List Nat)
    (hIdx : IndexedClusters clusters)
    (hpack : packClusters clusters cap = some (cols, colSzs)) :
    ∀ stripe ∈ cols, stripeWeight clusters stripe ≤ listMax colSzs := by
  intro stripe hst
  obtain ⟨c, hc, hce⟩ := List.mem_iff_getElem.mp hst
  have h1 := (pack_conservation_aux ⟨0, 0, 0⟩ clusters cap 0 cols colSzs hIdx hpack).1 c hc
  have hlen := pack_lengths_eq clusters cap cols colSzs hpack
  have hc2 : c < colSzs.length := by omega
  have h2 : colSzs.getD c 0 ∈ colSzs := by
    rw [List.getD_eq_getElem _ _ hc2]
    exact List.getElem_mem ..
  have h3 : cols.getD c [] = stripe := by
    rw [List.getD_eq_getElem _ _ hc, hce]
  rw [h3] at h1
  rw [← h1]
  exact le_listMax colSzs _ h2

theorem lookup_append (l₁ l₂ : List (Nat × Nat)) (a : Nat) :
    (l₁ ++ l₂).lookup a = (l₁.lookup a).or (l₂.lookup a) := by
  induction l₁ with
  | nil => simp [List.lookup]
  | cons p rest ih =>
    obtain ⟨k, v⟩ := p
    simp only [List.cons_append, List.lookup]
    cases hak : a == k
    · simpa using ih
    · simp

theorem lookup_eq_none_iff (l : List (Nat × Nat)) (a : Nat) :
    l.lookup a = none ↔ a ∉ l.map Prod.fst := by
  induction l with
  | nil => simp [List.lookup]
  | cons p rest ih =>
    obtain ⟨k, v⟩ := p
    simp only [List.lookup, List.map_cons, List.mem_cons]
    cases hak : a == k
    · have hne : ¬a = k := by simpa using hak
      simpa [hne] using ih
    · have he : a = k := by simpa using hak
      simp [he]

theorem stripeEntries_keys (clusters : List Cluster) (m colBase : Nat)
    (stripe : List Nat) (rowBase : Nat) :
    (stripeEntries clusters m colBase stripe rowBase).map Prod.fst = stripe := by
  induction stripe generalizing rowBase with
  | nil => rfl
  | cons cid rest ih => simp [stripeEntries, ih]

theorem flatCols_count (cols : List (List Nat)) (y : Nat) :
    (flatCols cols).count y = (cols.map (fun col => col.count y)).sum := by
  induction cols with
  | nil => rfl
  | cons stripe rest ih =>
    have h : flatCols (stripe :: rest) = stripe ++ flatCols rest := rfl
    rw [h, List.count_append, ih]
    simp

theorem flatCols_nodup_of (clusters : List Cluster) (cap : Nat)
    (cols : List (List Nat)) (colSzs : List Nat)
    (hNodup : (clusters.map Cluster.index).Nodup)
    (hpack : packClusters clusters cap = some (cols, colSzs)) :
    (flatCols cols).Nodup := by
  rw [List.nodup_iff_count_le_one]
  intro a
  rw [flatCols_count, packClusters_count clusters cap cols colSzs hpack a]
  exact List.nodup_iff_count_le_one.mp hNodup a

theorem processStripe_ne_dupKey (clusters : List Cluster) (dim m l colBase : Nat)
    (stripe : List Nat) (rowBase : Nat) (vals : Nat → Nat) (imap : List (Nat × Nat))
    (hn : stripe.Nodup)
    (hdisj : ∀ cid ∈ stripe, imap.lookup cid = none) :
    processStripe clusters dim m l colBase stripe rowBase vals imap ≠ .error .dupKey := by
  induction stripe generalizing rowBase vals imap with
  | nil => simp [processStripe]
  | cons cid rest ih =>
    rw [List.nodup_cons] at hn
    simp only [processStripe]
    split
    · rename_i hsome
      rw [hdisj cid (List.mem_cons_self ..)] at hsome
      simp at hsome
    · split
      · simp
      · apply ih _ _ _ hn.2
        intro c hc
        rw [lookup_append, hdisj c (List.mem_cons_of_mem _ hc)]
        have hne : ¬c = cid := fun h => hn.1 (h ▸ hc)
        have hb : (c == cid) = false := by simpa using hne
        have h1 : List.lookup c [(cid, dbIndex rowBase colBase m)] = none := by
          simp [List.lookup, hb]
        rw [h1]
        rfl

theorem processStripe_ok_imap (clusters : List Cluster) (dim m l colBase : Nat)
    (stripe : List Nat) (rowBase : Nat) (vals : Nat → Nat) (imap : List (Nat × Nat))
    (vals' : Nat → Nat) (imap' : List (Nat × Nat))
    (h : processStripe clusters dim m l colBase stripe rowBase vals imap = .ok (vals', imap')) :
    imap' = imap ++ stripeEntries clusters m colBase stripe rowBase := by
  induction stripe generalizing rowBase vals imap with
  | nil =>
    simp only [processStripe, Except.ok.injEq, Prod.mk.injEq] at h
    rw [← h.2]
    simp [stripeEntries]
  | cons cid rest ih =>
    simp only [processStripe] at h
    split at h
    · exact absurd h (by simp)
    · split at h
      · exact absurd h (by simp)
      · have hrec := ih _ _ _ h
        rw [hrec, stripeEntries]
        simp [List.append_assoc]

theorem processStripe_ok_of (clusters : List Cluster) (dim m l colBase : Nat)
    (stripe : List Nat) (rowBase : Nat) (vals : Nat → Nat) (imap : List (Nat × Nat))
    (hn : stripe.Nodup)
    (hdisj : ∀ cid ∈ stripe, imap.lookup cid = none)
    (hle : rowBase + stripeWeight clusters stripe ≤ l) :
    ∃ vals', processStripe clusters dim m l colBase stripe rowBase vals imap
      = .ok (vals', imap ++ stripeEntries clusters m colBase stripe rowBase) := by
  induction stripe generalizing rowBase vals imap with
  | nil => exact ⟨vals, by simp [processStripe, stripeEntries]⟩
  | cons cid rest ih =>
    rw [List.nodup_cons] at hn
    have hw : stripeWeight clusters (cid :: rest)
        = clusterSize clusters cid + stripeWeight clusters rest := by
      simp [stripeWeight]
    have hnv : clusterSize clusters cid = (clusters.getD cid default).numVectors := rfl
    have hlook := hdisj cid (List.mem_cons_self ..)
    have hdisj' : ∀ c ∈ rest,
        (imap ++ [(cid, dbIndex rowBase colBase m)]).lookup c = none := by
      intro c hc
      rw [lookup_append, hdisj c (List.mem_cons_of_mem _ hc)]
      have hne : ¬c = cid := fun h => hn.1 (h ▸ hc)
      have hb : (c == cid) = false := by simpa using hne
      have h1 : List.lookup c [(cid, dbIndex rowBase colBase m)] = none := by
        simp [List.lookup, hb]
      rw [h1]
      rfl
    obtain ⟨vals', hrec⟩ := ih (rowBase + (clusters.getD cid default).numVectors)
      (writeClusterVals (clusters.getD cid default) dim m rowBase colBase vals)
      (imap ++ [(cid, dbIndex rowBase colBase m)]) hn.2 hdisj' (by omega)
    refine ⟨vals', ?_⟩
    simp only [processStripe]
    split
    · rename_i hsome
      rw [hlook] at hsome
      simp at hsome
    · split
      · rename_i hover
        exfalso
        omega
      · rw [show imap ++ stripeEntries clusters m colBase (cid :: rest) rowBase
            = (imap ++ [(cid, dbIndex rowBase colBase m)])
              ++ stripeEntries clusters m colBase rest
                (rowBase + (clusters.getD cid default).numVectors) from by
          simp [stripeEntries, List.append_assoc]]
        exact hrec

theorem processCols_ne_dupKey (clusters : List Cluster) (dim m l : Nat)
    (colsList : List (List Nat)) (colIndex : Nat) (vals : Nat → Nat) (imap : List (Nat × Nat))
    (hn : (flatCols colsList).Nodup)
    (hdisj : ∀ cid ∈ flatCols colsList, imap.lookup cid = none) :
    processCols clusters dim m l colsList colIndex vals imap ≠ .error .dupKey := by
  induction colsList generalizing colIndex vals imap with
  | nil => simp [processCols]
  | cons stripe rest ih =>
    have hflat : flatCols (stripe :: rest) = stripe ++ flatCols rest := rfl
    rw [hflat] at hn hdisj
    rw [List.nodup_append] at hn
    obtain ⟨hn1, hn2, hdis⟩ := hn
    simp only [processCols]
    cases hps : processStripe clusters dim m l (dim * colIndex) stripe 0 vals imap with
    | error e =>
      cases e with
      | dupKey =>
        exact absurd hps (processStripe_ne_dupKey clusters dim m l (dim * colIndex) stripe 0
          vals imap hn1 (fun c hc => hdisj c (List.mem_append_left _ hc)))
      | rowOverflow => simp
    | ok p =>
      obtain ⟨vals₁, imap₁⟩ := p
      have himap := processStripe_ok_imap clusters dim m l (dim * colIndex) stripe 0
        vals imap vals₁ imap₁ hps
      show processCols clusters dim m l rest (colIndex + 1) vals₁ imap₁ ≠ .error .dupKey
      apply ih _ _ _ hn2
      intro c hc
      rw [himap, lookup_append, hdisj c (List.mem_append_right _ hc)]
      have h1 : (stripeEntries clusters m (dim * colIndex) stripe 0).lookup c = none := by
        rw [lookup_eq_none_iff, stripeEntries_keys]
        exact fun hmem => (hdis hmem) hc
      rw [h1]
      rfl

theorem processCols_ok_of (clusters : List Cluster) (dim m l : Nat)
    (colsList : List (List Nat)) (colIndex : Nat) (vals : Nat → Nat) (imap : List (Nat × Nat))
    (hn : (flatCols colsList).Nodup)
    (hdisj : ∀ cid ∈ flatCols colsList, imap.lookup cid = none)
    (hw : ∀ stripe ∈ colsList, stripeWeight clusters stripe ≤ l) :
    ∃ vals', processCols clusters dim m l colsList colIndex vals imap
      = .ok (vals', imap ++ colsEntries clusters dim m colsList colIndex) := by
  induction colsList generalizing colIndex vals imap with
  | nil => exact ⟨vals, by simp [processCols, colsEntries]⟩
  | cons stripe rest ih =>
    have hflat : flatCols (stripe :: rest) = stripe ++ flatCols rest := rfl
    rw [hflat] at hn hdisj
    rw [List.nodup_append] at hn
    obtain ⟨hn1, hn2, hdis⟩ := hn
    obtain ⟨vals₁, hps⟩ := processStripe_ok_of clusters dim m l (dim * colIndex) stripe 0
      vals imap hn1 (fun c hc => hdisj c (List.mem_append_left _ hc))
      (by simpa using hw stripe (List.mem_cons_self ..))
    have hdisj' : ∀ c ∈ flatCols rest,
        (imap ++ stripeEntries clusters m (dim * colIndex) stripe 0).lookup c = none := by
      intro c hc
      rw [lookup_append, hdisj c (List.mem_append_right _ hc)]
      have h1 : (stripeEntries clusters m (dim * colIndex) stripe 0).lookup c = none := by
        rw [lookup_eq_none_iff, stripeEntries_keys]
        exact fun hmem => (hdis hmem) hc
      rw [h1]
      rfl
    obtain ⟨vals₂, hpc⟩ := ih (colIndex + 1) vals₁
      (imap ++ stripeEntries clusters m (dim * colIndex) stripe 0) hn2 hdisj'
      (fun s hs => hw s (List.mem_cons_of_mem _ hs))
    refine ⟨vals₂, ?_⟩
    simp only [processCols, hps]
    rw [hpc]
    rw [show imap ++ colsEntries clusters dim m (stripe :: rest) colIndex
        = (imap ++ stripeEntries clusters m (dim * colIndex) stripe 0)
          ++ colsEntries clusters dim m rest (colIndex + 1) from by
      simp [colsEntries, List.append_assoc]]

theorem exceptMap_error_iff {α β γ : Type} (f : β → γ) (x : Except α β) (e : α) :
    x.map f = .error e ↔ x = .error e := by
  cases x <;> simp [Except.map]

theorem packClusters_isSome_of_ne_nil (clusters : List Cluster) (cap : Nat)
    (hne : clusters ≠ []) :
    ∃ cols colSzs, packClusters clusters cap = some (cols, colSzs) := by
  cases hs : sortedIndices clusters with
  | nil => exact absurd ((sortedIndices_eq_nil_iff clusters).mp hs) hne
  | cons i0 rest =>
    simp only [packClusters, hs, packFromOrder]
    exact ⟨_, _, rfl⟩

/-- Claim C4: with distinct cluster indices, every cluster id appears in
exactly one stripe of the packed layout, exactly once; consequently the
duplicate-index-map-key panic of `BuildVectorDatabase` is unreachable. -/
theorem packClusters_disjoint (clusters : List Cluster) (cap : Nat)
    (cols : List (List Nat)) (colSzs : List Nat)
    (hNodup : (clusters.map Cluster.index).Nodup)
    (hpack : packClusters clusters cap = some (cols, colSzs)) :
    (∀ cid ∈ clusters.map Cluster.index,
        (cols.map (fun col => col.count cid)).sum = 1) ∧
    (∀ metadata : Metadata, ∀ hintSz precBits : Nat, ∀ params : Option LweParams,
        buildSummary metadata clusters hintSz precBits params ≠ .error .dupKey) := by
  constructor
  · intro cid hc
    rw [packClusters_count clusters cap cols colSzs hpack cid]
    have h1 : (clusters.map Cluster.index).count cid ≤ 1 :=
      List.nodup_iff_count_le_one.mp hNodup cid
    have h2 : 0 < (clusters.map Cluster.index).count cid := List.count_pos_iff.mpr hc
    omega
  · intro metadata hintSz precBits params hcontra
    rw [buildSummary, exceptMap_error_iff] at hcontra
    have hne : clusters ≠ [] := by
      intro h
      subst h
      simp [packClusters, sortedIndices, sortDescBy, packFromOrder] at hpack
    obtain ⟨cols2, colSzs2, hp2⟩ := packClusters_isSome_of_ne_nil clusters (hintSz * 125) hne
    cases params with
    | none => simp [buildVectorDatabase, hp2] at hcontra
    | some p =>
      simp only [buildVectorDatabase, hp2] at hcontra
      have hfn := flatCols_nodup_of clusters (hintSz * 125) cols2 colSzs2 hNodup hp2
      have hnd := processCols_ne_dupKey clusters metadata.dim (cols2.length * metadata.dim)
        (listMax colSzs2) cols2 0 (fun _ => 0) [] hfn (fun c hc => rfl)
      split at hcontra
      · simp at hcontra
      · split at hcontra
        · exact hnd (by assumption)
        · simp at hcontra
        · simp at hcontra

theorem build_ok_of (metadata : Metadata) (clusters : List Cluster)
    (hintSz precBits : Nat) (p : LweParams)
    (hne : clusters ≠ []) (hIdx : IndexedClusters clusters)
    (hok : ¬(p.P < 2 ^ precBits % 2 ^ 64 ∨ p.Logq ≠ 64)) :
    ∃ cols colSzs vals',
      packClusters clusters (hintSz * 125) = some (cols, colSzs) ∧
      processCols clusters metadata.dim (cols.length * metadata.dim) (listMax colSzs) cols 0
        (fun _ => 0) [] = .ok (vals',
          colsEntries clusters metadata.dim (cols.length * metadata.dim) cols 0) ∧
      buildVectorDatabase metadata clusters hintSz precBits (some p)
        = .ok ⟨listMax colSzs, cols.length * metadata.dim, vals',
            colsEntries clusters metadata.dim (cols.length * metadata.dim) cols 0, p⟩ := by
  obtain ⟨cols, colSzs, hpack⟩ := packClusters_isSome_of_ne_nil clusters (hintSz * 125) hne
  have hNodup : (clusters.map Cluster.index).Nodup := by
    rw [map_index_eq_range clusters hIdx]
    exact List.nodup_range _
  have hfn := flatCols_nodup_of clusters (hintSz * 125) cols colSzs hNodup hpack
  obtain ⟨vals', hpc⟩ := processCols_ok_of clusters metadata.dim
    (cols.length * metadata.dim) (listMax colSzs) cols 0 (fun _ => 0) [] hfn
    (fun c hc => rfl) (pack_weights_le clusters (hintSz * 125) cols colSzs hIdx hpack)
  rw [List.nil_append] at hpc
  refine ⟨cols, colSzs, vals', hpack, hpc, ?_⟩
  simp only [buildVectorDatabase, hpack]
  rw [if_neg hok]
  rw [hpc]

/-- Claim C6: for a non-empty, consistently indexed cluster list,
`BuildVectorDatabase` fails at startup exactly when the backend returns no
parameter object, or its `P` is below `2 ^ precBits`, or its `logQ` is not
64; when none of the three conditions holds, construction succeeds and the
parameter object is passed through unchanged (no defaults substituted). -/
theorem build_fails_iff_param_rejection (metadata : Metadata) (clusters : List Cluster)
    (hintSz precBits : Nat) (params : Option LweParams)
    (hne : clusters ≠ []) (hIdx : IndexedClusters clusters) :
    ((∃ e, buildSummary metadata clusters hintSz precBits params = .error e)
        ↔ paramsRejected params precBits) ∧
    (∀ p : LweParams, params = some p →
      ∀ l m imap q, buildSummary metadata clusters hintSz precBits params
          = .ok (l, m, imap, q) → q = p) := by
  constructor
  · constructor
    · rintro ⟨e, he⟩
      by_contra hrej
      cases params with
      | none => exact hrej trivial
      | some p =>
        have hok : ¬(p.P < 2 ^ precBits % 2 ^ 64 ∨ p.Logq ≠ 64) := by
          simpa [paramsRejected] using hrej
        obtain ⟨cols, colSzs, vals', hpack, hpcols, hb⟩ :=
          build_ok_of metadata clusters hintSz precBits p hne hIdx hok
        rw [buildSummary, hb] at he
        simp [Except.map] at he
    · intro hrej
      refine ⟨.badParams, ?_⟩
      obtain ⟨cols, colSzs, hpack⟩ := packClusters_isSome_of_ne_nil clusters (hintSz * 125) hne
      cases params with
      | none =>
        rw [buildSummary]
        simp only [buildVectorDatabase, hpack]
        rfl
      | some p =>
        have hr : p.P < 2 ^ precBits % 2 ^ 64 ∨ p.Logq ≠ 64 := by
          simpa [paramsRejected] using hrej
        rw [buildSummary]
        simp only [buildVectorDatabase, hpack]
        rw [if_pos hr]
        rfl
  · intro p hp l m imap q hsum
    subst hp
    by_cases hok : p.P < 2 ^ precBits % 2 ^ 64 ∨ p.Logq ≠ 64
    · obtain ⟨cols, colSzs, hpack⟩ := packClusters_isSome_of_ne_nil clusters (hintSz * 125) hne
      rw [buildSummary] at hsum
      simp only [buildVectorDatabase, hpack] at hsum
      rw [if_pos hok] at hsum
      simp [Except.map] at hsum
    · obtain ⟨cols, colSzs, vals', hpack, hpcols, hb⟩ :=
        build_ok_of metadata clusters hintSz precBits p hne hIdx hok
      rw [buildSummary, hb] at hsum
      simp only [Except.map, Except.ok.injEq, Prod.mk.injEq] at hsum
      exact hsum.2.2.2.symm

theorem lookup_cons_ne (k a v : Nat) (es : List (Nat × Nat)) (h : ¬a = k) :
    List.lookup a ((k, v) :: es) = List.lookup a es := by
  have hb : (a == k) = false := by simpa using h
  simp [List.lookup, hb]

theorem pack_some_ne_nil (clusters : List Cluster) (cap : Nat)
    (cols : List (List Nat)) (colSzs : List Nat)
    (hpack : packClusters clusters cap = some (cols, colSzs)) : clusters ≠ [] := by
  intro h
  subst h
  simp [packClusters, sortedIndices, sortDescBy, packFromOrder] at hpack

theorem stripeEntries_lookup (clusters : List Cluster) (m colBase : Nat)
    (stripe : List Nat) (rowBase k : Nat) (hn : stripe.Nodup) (hk : k < stripe.length) :
    (stripeEntries clusters m colBase stripe rowBase).lookup (stripe.getD k 0)
      = some (dbIndex (rowBase + rowsBefore clusters stripe k) colBase m) := by
  induction stripe generalizing rowBase k with
  | nil => simp at hk
  | cons cid rest ih =>
    rw [List.nodup_cons] at hn
    cases k with
    | zero =>
      simp [stripeEntries, List.lookup, rowsBefore, stripeWeight]
    | succ k' =>
      have hk' : k' < rest.length := by simpa using hk
      have hmem : rest.getD k' 0 ∈ rest := by
        rw [List.getD_eq_getElem _ _ hk']
        exact List.getElem_mem ..
      have hne : ¬(rest.getD k' 0) = cid := fun h => hn.1 (h ▸ hmem)
      rw [List.getD_cons_succ]
      rw [show stripeEntries clusters m colBase (cid :: rest) rowBase
          = (cid, dbIndex rowBase colBase m) :: stripeEntries clusters m colBase rest
              (rowBase + (clusters.getD cid default).numVectors) from rfl]
      rw [lookup_cons_ne _ _ _ _ hne, ih _ k' hn.2 hk']
      have harith : rowBase + (clusters.getD cid default).numVectors
            + rowsBefore clusters rest k'
          = rowBase + rowsBefore clusters (cid :: rest) (k' + 1) := by
        have h1 : rowsBefore clusters (cid :: rest) (k' + 1)
            = clusterSize clusters cid + rowsBefore clusters rest k' := by
          simp [rowsBefore, stripeWeight, List.take_succ_cons]
        have h2 : clusterSize clusters cid = (clusters.getD cid default).numVectors := rfl
        omega
      rw [dbIndex, dbIndex, harith]

theorem rowsBefore_add_le (clusters : List Cluster) (stripe : List Nat) (k : Nat)
    (hk : k < stripe.length) :
    rowsBefore clusters stripe k + clusterSize clusters (stripe.getD k 0)
      ≤ stripeWeight clusters stripe := by
  induction stripe generalizing k with
  | nil => simp at hk
  | cons cid rest ih =>
    cases k with
    | zero =>
      simp only [rowsBefore, List.take_zero, stripeWeight, List.map_nil, List.sum_nil,
        List.getD_cons_zero, List.map_cons, List.sum_cons]
      have h2 : clusterSize clusters ((cid :: rest).getD 0 0) = clusterSize clusters cid := rfl
      omega
    | succ k' =>
      have hk' : k' < rest.length := by simpa using hk
      have := ih k' hk'
      have h1 : rowsBefore clusters (cid :: rest) (k' + 1)
          = clusterSize clusters cid + rowsBefore clusters rest k' := by
        simp [rowsBefore, stripeWeight, List.take_succ_cons]
      have h2 : stripeWeight clusters (cid :: rest)
          = clusterSize clusters cid + stripeWeight clusters rest := by
        simp [stripeWeight]
      have h3 : (cid :: rest).getD (k' + 1) 0 = rest.getD k' 0 := List.getD_cons_succ ..
      rw [h1, h2, h3]
      omega

theorem mem_flatCols_of_getD (colsList : List (List Nat)) (c : Nat) (hc : c < colsList.length)
    (k : Nat) (hk : k < (colsList.getD c []).length) :
    (colsList.getD c []).getD k 0 ∈ flatCols colsList := by
  induction colsList generalizing c with
  | nil => simp at hc
  | cons stripe rest ih =>
    cases c with
    | zero =>
      simp only [List.getD_cons_zero] at hk ⊢
      have hm : stripe.getD k 0 ∈ stripe := by
        rw [List.getD_eq_getElem _ _ hk]
        exact List.getElem_mem ..
      exact List.mem_append_left _ hm
    | succ c' =>
      exact List.mem_append_right _ (ih c' (by simpa using hc) (by simpa using hk))

theorem colsEntries_lookup (clusters : List Cluster) (dim m : Nat)
    (colsList : List (List Nat)) (colIndex : Nat)
    (hn : (flatCols colsList).Nodup)
    (c : Nat) (hc : c < colsList.length) (k : Nat) (hk : k < (colsList.getD c []).length) :
    (colsEntries clusters dim m colsList colIndex).lookup ((colsList.getD c []).getD k 0)
      = some (dbIndex (rowsBefore clusters (colsList.getD c []) k) (dim * (colIndex + c)) m) := by
  induction colsList generalizing colIndex c with
  | nil => simp at hc
  | cons stripe rest ih =>
    rw [show flatCols (stripe :: rest) = stripe ++ flatCols rest from rfl] at hn
    rw [List.nodup_append] at hn
    obtain ⟨hn1, hn2, hdis⟩ := hn
    cases c with
    | zero =>
      simp only [List.getD_cons_zero] at hk ⊢
      rw [colsEntries, lookup_append,
        stripeEntries_lookup clusters m (dim * colIndex) stripe 0 k hn1 hk]
      simp [Option.or]
    | succ c' =>
      have hc' : c' < rest.length := by simpa using hc
      have hk' : k < (rest.getD c' []).length := by simpa using hk
      have hkey : (rest.getD c' []).getD k 0 ∈ flatCols rest :=
        mem_flatCols_of_getD rest c' hc' k hk'
      have h1 : (stripeEntries clusters m (dim * colIndex) stripe 0).lookup
          ((rest.getD c' []).getD k 0) = none := by
        rw [lookup_eq_none_iff, stripeEntries_keys]
        exact fun hmem => (hdis hmem) hkey
      have h3 : ((stripe :: rest).getD (c' + 1) []) = rest.getD c' [] := List.getD_cons_succ ..
      rw [h3, colsEntries, lookup_append, h1, ih (colIndex + 1) hn2 c' hc' hk']
      have harith : dim * (colIndex + 1 + c') = dim * (colIndex + (c' + 1)) := by
        ring_nf
      rw [harith]
      rfl

theorem dbIndex_div_mod (row c m : Nat) (hc : c < m) :
    dbIndex row c m / m = row ∧ dbIndex row c m % m = c := by
  have hm : 0 < m := Nat.lt_of_le_of_lt (Nat.zero_le c) hc
  have he : dbIndex row c m = c + row * m := by
    rw [dbIndex]
    omega
  constructor
  · rw [he, Nat.add_mul_div_right _ _ hm, Nat.div_eq_of_lt hc]
    omega
  · rw [he, Nat.add_mul_mod_self_right, Nat.mod_eq_of_lt hc]

/-- Claim C5: in every database `BuildVectorDatabase` builds, the index map
sends each cluster sitting in stripe `c` to an offset `v` with
`(v mod M) / dim = c` and `v / M + numVectors ≤ L`; consequently the
row-overflow assertion (`rowIndex > l`, the `"Should not happen"` panic)
never fires. -/
theorem indexMap_consistency (metadata : Metadata) (clusters : List Cluster)
    (hintSz precBits : Nat) (params : Option LweParams)
    (cols : List (List Nat)) (colSzs : List Nat)
    (l m : Nat) (imap : List (Nat × Nat)) (p : LweParams)
    (hIdx : IndexedClusters clusters) (hdim : 0 < metadata.dim)
    (hpack : packClusters clusters (hintSz * 125) = some (cols, colSzs))
    (hsum : buildSummary metadata clusters hintSz precBits params = .ok (l, m, imap, p)) :
    (∀ c, c < cols.length → ∀ k, k < (cols.getD c []).length →
      ∃ v, imap.lookup ((cols.getD c []).getD k 0) = some v ∧
        v % m / metadata.dim = c ∧
        v / m + (clusters.getD ((cols.getD c []).getD k 0) default).numVectors ≤ l) ∧
    (∀ params2 : Option LweParams,
      buildSummary metadata clusters hintSz precBits params2 ≠ .error .rowOverflow) := by
  have hne := pack_some_ne_nil clusters (hintSz * 125) cols colSzs hpack
  have hNodup : (clusters.map Cluster.index).Nodup := by
    rw [map_index_eq_range clusters hIdx]
    exact List.nodup_range _
  have hfn := flatCols_nodup_of clusters (hintSz * 125) cols colSzs hNodup hpack
  have hstruct : l = listMax colSzs ∧ m = cols.length * metadata.dim ∧
      imap = colsEntries clusters metadata.dim (cols.length * metadata.dim) cols 0 := by
    cases params with
    | none =>
      rw [buildSummary] at hsum
      simp [buildVectorDatabase, hpack, Except.map] at hsum
    | some p0 =>
      by_cases hok : p0.P < 2 ^ precBits % 2 ^ 64 ∨ p0.Logq ≠ 64
      · rw [buildSummary] at hsum
        simp only [buildVectorDatabase, hpack] at hsum
        rw [if_pos hok] at hsum
        simp [Except.map] at hsum
      · obtain ⟨cols2, colSzs2, vals', hpack2, hpcols2, hb⟩ :=
          build_ok_of metadata clusters hintSz precBits p0 hne hIdx hok
        rw [hpack2] at hpack
        simp only [Option.some.injEq, Prod.mk.injEq] at hpack
        obtain ⟨hc2, hsz2⟩ := hpack
        subst hc2
        subst hsz2
        rw [buildSummary, hb] at hsum
        simp only [Except.map, Except.ok.injEq, Prod.mk.injEq] at hsum
        obtain ⟨h1, h2, h3, h4⟩ := hsum
        exact ⟨h1.symm, h2.symm, h3.symm⟩
  obtain ⟨hl, hm, himap⟩ := hstruct
  subst hl
  subst hm
  subst himap
  constructor
  · intro c hc k hk
    have hcm : metadata.dim * (0 + c) < cols.length * metadata.dim := by
      rw [show (0 + c) = c from by omega]
      calc metadata.dim * c < metadata.dim * cols.length := by
            exact mul_lt_mul_of_pos_left hc hdim
        _ = cols.length * metadata.dim := Nat.mul_comm _ _
    obtain ⟨hdiv, hmod⟩ := dbIndex_div_mod (rowsBefore clusters (cols.getD c []) k)
      (metadata.dim * (0 + c)) (cols.length * metadata.dim) hcm
    refine ⟨dbIndex (rowsBefore clusters (cols.getD c []) k) (metadata.dim * (0 + c))
        (cols.length * metadata.dim), ?_, ?_, ?_⟩
    · exact colsEntries_lookup clusters metadata.dim (cols.length * metadata.dim)
        cols 0 hfn c hc k hk
    · rw [hmod, show metadata.dim * (0 + c) = metadata.dim * c from by ring]
      exact Nat.mul_div_cancel_left c hdim
    · rw [hdiv]
      have h1 := rowsBefore_add_le clusters (cols.getD c []) k hk
      have h2 : stripeWeight clusters (cols.getD c []) ≤ listMax colSzs := by
        apply pack_weights_le clusters (hintSz * 125) cols colSzs hIdx hpack
        rw [List.getD_eq_getElem _ _ hc]
        exact List.getElem_mem ..
      have h3 : clusterSize clusters ((cols.getD c []).getD k 0)
          = (clusters.getD ((cols.getD c []).getD k 0) default).numVectors := rfl
      omega
  · intro params2 hcontra
    rw [buildSummary, exceptMap_error_iff] at hcontra
    cases params2 with
    | none =>
      simp [buildVectorDatabase, hpack] at hcontra
    | some q =>
      by_cases hok : q.P < 2 ^ precBits % 2 ^ 64 ∨ q.Logq ≠ 64
      · simp only [buildVectorDatabase, hpack] at hcontra
        rw [if_pos hok] at hcontra
        simp at hcontra
      · obtain ⟨cols2, colSzs2, vals', hpack2, hpcols2, hb⟩ :=
          build_ok_of metadata clusters hintSz precBits q hne hIdx hok
        rw [hb] at hcontra
        simp at hcontra

/-- Claim C9: `writeResults` fails exactly on an empty reconstructed score
list — it dies before writing anything — and a non-empty score list never
trips this check. -/
theorem writeResults_none_iff (scores : List VectorScore) (k : Nat) :
    writeResults scores k = none ↔ scores = [] := by
  constructor
  · intro h
    by_contra hne
    rw [writeResults, if_neg (fun hz => hne (List.length_eq_zero.mp hz))] at h
    exact Option.noConfusion h
  · rintro rfl
    rfl

theorem writeVecLanes_char (m row colBase : Nat) (vec : List Int) (base lanes : Nat)
    (vals : Nat → Nat) (idx : Nat) :
    writeVecLanes m row colBase vec base lanes vals idx
      = if row * m + colBase ≤ idx ∧ idx < row * m + colBase + lanes
        then u64OfInt8 (vec.getD (base + (idx - (row * m + colBase))) 0)
        else vals idx := by
  induction lanes with
  | zero =>
    rw [writeVecLanes]
    simp only [List.range_zero, List.foldl_nil]
    rw [if_neg (by omega)]
  | succ n ih =>
    have hstep : writeVecLanes m row colBase vec base (n + 1) vals
        = store (writeVecLanes m row colBase vec base n vals)
            (dbIndex row (colBase + n) m) (u64OfInt8 (vec.getD (base + n) 0)) := by
      rw [writeVecLanes, writeVecLanes, List.range_succ, List.foldl_append]
      rfl
    have hpos : dbIndex row (colBase + n) m = row * m + colBase + n := by
      rw [dbIndex]
      omega
    rw [hstep, store]
    by_cases hidx : idx = dbIndex row (colBase + n) m
    · rw [if_pos hidx]
      rw [hpos] at hidx
      rw [if_pos (by omega)]
      have hoff : idx - (row * m + colBase) = n := by omega
      rw [hoff]
    · rw [if_neg hidx, ih]
      rw [hpos] at hidx
      by_cases hc : row * m + colBase ≤ idx ∧ idx < row * m + colBase + n
      · rw [if_pos hc, if_pos (by omega)]
      · rw [if_neg hc, if_neg (by omega)]

theorem writeRows_char (vec : List Int) (dim m rowBase colBase n : Nat)
    (vals : Nat → Nat) (idx : Nat) (_hm0 : 0 < m) (hcb : colBase + dim ≤ m) :
    writeRows vec dim m rowBase colBase n vals idx
      = if rowBase ≤ idx / m ∧ idx / m < rowBase + n ∧
          colBase ≤ idx % m ∧ idx % m < colBase + dim
        then u64OfInt8 (vec.getD ((idx / m - rowBase) * dim + (idx % m - colBase)) 0)
        else vals idx := by
  induction n with
  | zero =>
    rw [writeRows]
    simp only [List.range_zero, List.foldl_nil]
    rw [if_neg (by omega)]
  | succ n ih =>
    have hstep : writeRows vec dim m rowBase colBase (n + 1) vals
        = writeVecLanes m (rowBase + n) colBase vec (n * dim) dim
            (writeRows vec dim m rowBase colBase n vals) := by
      rw [writeRows, writeRows, List.range_succ, List.foldl_append]
      rfl
    rw [hstep, writeVecLanes_char]
    have hiff : ((rowBase + n) * m + colBase ≤ idx ∧ idx < (rowBase + n) * m + colBase + dim)
        ↔ (idx / m = rowBase + n ∧ colBase ≤ idx % m ∧ idx % m < colBase + dim) := by
      constructor
      · rintro ⟨h1, h2⟩
        set r := idx - ((rowBase + n) * m + colBase) with hr
        have hxe : idx = (rowBase + n) * m + (colBase + r) := by omega
        have hcc : colBase + r < m := by omega
        obtain ⟨hd, hmo⟩ := dbIndex_div_mod (rowBase + n) (colBase + r) m hcc
        rw [dbIndex] at hd hmo
        rw [hxe, hd, hmo]
        refine ⟨rfl, by omega, by omega⟩
      · rintro ⟨hd, hc1, hc2⟩
        have hsplit := Nat.div_add_mod idx m
        rw [hd] at hsplit
        have hcomm : m * (rowBase + n) = (rowBase + n) * m := Nat.mul_comm _ _
        omega
    by_cases hlast : idx / m = rowBase + n ∧ colBase ≤ idx % m ∧ idx % m < colBase + dim
    · rw [if_pos (hiff.mpr hlast)]
      rw [if_pos (by omega)]
      have hidxeq : n * dim + (idx - ((rowBase + n) * m + colBase))
          = (idx / m - rowBase) * dim + (idx % m - colBase) := by
        rw [hlast.1, Nat.add_sub_cancel_left]
        have hcomm2 : m * (rowBase + n) = (rowBase + n) * m := Nat.mul_comm _ _
        have hsplit2 : m * (rowBase + n) + idx % m = idx := by
          rw [← hlast.1]
          exact Nat.div_add_mod idx m
        omega
      rw [hidxeq]
    · rw [if_neg (fun hcc => hlast (hiff.mp hcc)), ih]
      by_cases hc : rowBase ≤ idx / m ∧ idx / m < rowBase + n ∧
          colBase ≤ idx % m ∧ idx % m < colBase + dim
      · rw [if_pos hc, if_pos (by omega)]
      · rw [if_neg hc, if_neg ?hng]
        case hng =>
          intro hcc
          exact hlast ⟨by omega, hcc.2.2.1, hcc.2.2.2⟩

theorem writeClusterVals_char (cl : Cluster) (dim m rowBase colBase : Nat)
    (vals : Nat → Nat) (idx : Nat) (_hm0 : 0 < m) (hcb : colBase + dim ≤ m) :
    writeClusterVals cl dim m rowBase colBase vals idx
      = (clusterVal cl dim m rowBase colBase idx).getD (vals idx) := by
  rw [writeClusterVals,
    writeRows_char cl.vectors dim m rowBase colBase cl.numVectors vals idx _hm0 hcb,
    clusterVal]
  by_cases hc : rowBase ≤ idx / m ∧ idx / m < rowBase + cl.numVectors ∧
      colBase ≤ idx % m ∧ idx % m < colBase + dim
  · rw [if_pos hc, if_pos hc]
    rfl
  · rw [if_neg hc, if_neg hc]
    rfl

theorem clusterVal_cond (cl : Cluster) (dim m rowBase colBase idx : Nat) (v : Nat)
    (h : clusterVal cl dim m rowBase colBase idx = some v) :
    rowBase ≤ idx / m ∧ idx / m < rowBase + cl.numVectors ∧
      colBase ≤ idx % m ∧ idx % m < colBase + dim := by
  by_contra hnc
  rw [clusterVal, if_neg hnc] at h
  exact Option.noConfusion h

theorem stripeVal_none_of_lt (clusters : List Cluster) (dim m colBase : Nat)
    (stripe : List Nat) (rowBase idx : Nat) (h : idx / m < rowBase) :
    stripeVal clusters dim m colBase stripe rowBase idx = none := by
  induction stripe generalizing rowBase with
  | nil => rfl
  | cons cid rest ih =>
    have hcv : clusterVal (clusters.getD cid default) dim m rowBase colBase idx = none := by
      rw [clusterVal, if_neg (by omega)]
    simp only [stripeVal, hcv]
    exact ih _ (by omega)

theorem stripeVal_none_of_ge (clusters : List Cluster) (dim m colBase : Nat)
    (stripe : List Nat) (rowBase idx : Nat)
    (h : rowBase + stripeWeight clusters stripe ≤ idx / m) :
    stripeVal clusters dim m colBase stripe rowBase idx = none := by
  induction stripe generalizing rowBase with
  | nil => rfl
  | cons cid rest ih =>
    have hw : stripeWeight clusters (cid :: rest)
        = clusterSize clusters cid + stripeWeight clusters rest := by
      simp [stripeWeight]
    have hsz : clusterSize clusters cid = (clusters.getD cid default).numVectors := rfl
    have hcv : clusterVal (clusters.getD cid default) dim m rowBase colBase idx = none := by
      rw [clusterVal, if_neg (by omega)]
    simp only [stripeVal, hcv]
    exact ih _ (by omega)

theorem stripeVal_some_col (clusters : List Cluster) (dim m colBase : Nat)
    (stripe : List Nat) (rowBase idx v : Nat)
    (h : stripeVal clusters dim m colBase stripe rowBase idx = some v) :
    colBase ≤ idx % m ∧ idx % m < colBase + dim := by
  induction stripe generalizing rowBase with
  | nil => exact absurd h (by simp [stripeVal])
  | cons cid rest ih =>
    simp only [stripeVal] at h
    cases hcv : clusterVal (clusters.getD cid default) dim m rowBase colBase idx with
    | some w =>
      have hc := clusterVal_cond _ _ _ _ _ _ _ hcv
      exact ⟨hc.2.2.1, hc.2.2.2⟩
    | none =>
      rw [hcv] at h
      exact ih _ h

theorem stripeVal_col_outside (clusters : List Cluster) (dim m colBase : Nat)
    (stripe : List Nat) (rowBase idx : Nat)
    (h : idx % m < colBase ∨ colBase + dim ≤ idx % m) :
    stripeVal clusters dim m colBase stripe rowBase idx = none := by
  cases hsv : stripeVal clusters dim m colBase stripe rowBase idx with
  | none => rfl
  | some v =>
    have := stripeVal_some_col clusters dim m colBase stripe rowBase idx v hsv
    omega

theorem processStripe_ok_vals (clusters : List Cluster) (dim m l colBase : Nat)
    (stripe : List Nat) (rowBase : Nat) (vals vals' : Nat → Nat)
    (imap imap' : List (Nat × Nat))
    (hm0 : 0 < m) (hcb : colBase + dim ≤ m)
    (h : processStripe clusters dim m l colBase stripe rowBase vals imap = .ok (vals', imap')) :
    ∀ idx, vals' idx = (stripeVal clusters dim m colBase stripe rowBase idx).getD (vals idx) := by
  induction stripe generalizing rowBase vals imap with
  | nil =>
    intro idx
    simp only [processStripe, Except.ok.injEq, Prod.mk.injEq] at h
    rw [← h.1]
    rfl
  | cons cid rest ih =>
    intro idx
    simp only [processStripe] at h
    split at h
    · exact absurd h (by simp)
    · split at h
      · exact absurd h (by simp)
      · have hrec := ih _ _ _ h idx
        rw [hrec, writeClusterVals_char _ _ _ _ _ _ _ hm0 hcb]
        simp only [stripeVal]
        cases hcv : clusterVal (clusters.getD cid default) dim m rowBase colBase idx with
        | none => simp
        | some v =>
          have hc := clusterVal_cond _ _ _ _ _ _ _ hcv
          rw [stripeVal_none_of_lt clusters dim m colBase rest _ idx (by omega)]
          simp

theorem dbVal_none_of_col_lt (clusters : List Cluster) (dim m : Nat)
    (colsList : List (List Nat)) (colIndex idx : Nat)
    (h : idx % m < dim * colIndex) :
    dbVal clusters dim m colsList colIndex idx = none := by
  induction colsList generalizing colIndex with
  | nil => rfl
  | cons stripe rest ih =>
    have hsv : stripeVal clusters dim m (dim * colIndex) stripe 0 idx = none :=
      stripeVal_col_outside clusters dim m (dim * colIndex) stripe 0 idx (Or.inl h)
    simp only [dbVal, hsv]
    have he : dim * (colIndex + 1) = dim * colIndex + dim := by ring
    exact ih (colIndex + 1) (by omega)

theorem processCols_ok_vals (clusters : List Cluster) (dim m l : Nat)
    (colsList : List (List Nat)) (colIndex : Nat) (vals vals' : Nat → Nat)
    (imap imap' : List (Nat × Nat))
    (hm0 : 0 < m) (hcb : dim * colIndex + dim * colsList.length ≤ m)
    (h : processCols clusters dim m l colsList colIndex vals imap = .ok (vals', imap')) :
    ∀ idx, vals' idx = (dbVal clusters dim m colsList colIndex idx).getD (vals idx) := by
  induction colsList generalizing colIndex vals imap with
  | nil =>
    intro idx
    simp only [processCols, Except.ok.injEq, Prod.mk.injEq] at h
    rw [← h.1]
    rfl
  | cons stripe rest ih =>
    intro idx
    have hlen : dim * (colIndex + 1) + dim * rest.length = dim * colIndex + dim * (stripe :: rest).length := by
      simp only [List.length_cons]
      ring
    have hcb0 : dim * colIndex + dim ≤ m := by
      have h2 : dim * (stripe :: rest).length = dim * rest.length + dim := by
        simp only [List.length_cons]
        ring
      omega
    simp only [processCols] at h
    split at h
    · exact absurd h (by simp)
    · rename_i vals₁ imap₁ heq
      have hsv := processStripe_ok_vals clusters dim m l (dim * colIndex) stripe 0
        vals vals₁ imap imap₁ hm0 hcb0 heq
      have hrec := ih (colIndex + 1) vals₁ imap₁ (by omega) h idx
      rw [hrec, hsv idx]
      simp only [dbVal]
      cases hsv2 : stripeVal clusters dim m (dim * colIndex) stripe 0 idx with
      | none => simp
      | some v =>
        have hcol := stripeVal_some_col clusters dim m (dim * colIndex) stripe 0 idx v hsv2
        have he : dim * (colIndex + 1) = dim * colIndex + dim := by ring
        rw [dbVal_none_of_col_lt clusters dim m rest (colIndex + 1) idx (by omega)]
        simp

theorem pack_cols_ne_nil (clusters : List Cluster) (cap : Nat)
    (cols : List (List Nat)) (colSzs : List Nat)
    (hpack : packClusters clusters cap = some (cols, colSzs)) : cols ≠ [] := by
  obtain ⟨i0, rest, cap', hs, hcap, hcols, hszs⟩ :=
    packClusters_destruct clusters cap cols colSzs hpack
  have hfold : ∀ (order : List Nat) (st : List (List Nat × Nat)), st ≠ [] →
      order.foldl (packStep clusters cap') st ≠ [] := by
    intro order
    induction order with
    | nil => exact fun st h => h
    | cons i r ih =>
      intro st h
      exact ih _ (place_ne_nil _ _ _ st)
  rw [hcols]
  intro hmap
  exact hfold rest _ (by simp) (List.map_eq_nil_iff.mp hmap)

theorem build_ok_inversion (metadata : Metadata) (clusters : List Cluster)
    (hintSz precBits : Nat) (params : Option LweParams)
    (cols : List (List Nat)) (colSzs : List Nat)
    (l m : Nat) (imap : List (Nat × Nat)) (p : LweParams)
    (hIdx : IndexedClusters clusters) (hdim : 0 < metadata.dim)
    (hpack : packClusters clusters (hintSz * 125) = some (cols, colSzs))
    (hsum : buildSummary metadata clusters hintSz precBits params = .ok (l, m, imap, p)) :
    params = some p ∧ ¬(p.P < 2 ^ precBits % 2 ^ 64 ∨ p.Logq ≠ 64) ∧
    l = listMax colSzs ∧ m = cols.length * metadata.dim ∧
    imap = colsEntries clusters metadata.dim (cols.length * metadata.dim) cols 0 ∧
    ∀ idx, buildValsAt metadata clusters hintSz precBits params idx
      = (dbVal clusters metadata.dim (cols.length * metadata.dim) cols 0 idx).getD 0 := by
  have hne := pack_some_ne_nil clusters (hintSz * 125) cols colSzs hpack
  cases params with
  | none =>
    rw [buildSummary] at hsum
    simp [buildVectorDatabase, hpack, Except.map] at hsum
  | some p0 =>
    by_cases hok : p0.P < 2 ^ precBits % 2 ^ 64 ∨ p0.Logq ≠ 64
    · rw [buildSummary] at hsum
      simp only [buildVectorDatabase, hpack] at hsum
      rw [if_pos hok] at hsum
      simp [Except.map] at hsum
    · obtain ⟨cols2, colSzs2, vals', hpack2, hpcols2, hb⟩ :=
        build_ok_of metadata clusters hintSz precBits p0 hne hIdx hok
      rw [hpack2] at hpack
      simp only [Option.some.injEq, Prod.mk.injEq] at hpack
      obtain ⟨hc2, hsz2⟩ := hpack
      subst hc2
      subst hsz2
      rw [buildSummary, hb] at hsum
      simp only [Except.map, Except.ok.injEq, Prod.mk.injEq] at hsum
      obtain ⟨h1, h2, h3, h4⟩ := hsum
      subst h4
      refine ⟨rfl, hok, h1.symm, h2.symm, h3.symm, ?_⟩
      intro idx
      have hm0 : 0 < cols2.length * metadata.dim := by
        have hcn := pack_cols_ne_nil clusters (hintSz * 125) cols2 colSzs2 hpack2
        have hpos : 0 < cols2.length := List.length_pos.mpr hcn
        exact Nat.mul_pos hpos hdim
      have hcb : metadata.dim * 0 + metadata.dim * cols2.length ≤ cols2.length * metadata.dim := by
        have hco : metadata.dim * cols2.length = cols2.length * metadata.dim := Nat.mul_comm _ _
        omega
      have hchar := processCols_ok_vals clusters metadata.dim (cols2.length * metadata.dim)
        (listMax colSzs2) cols2 0 (fun _ => 0) vals' []
        (colsEntries clusters metadata.dim (cols2.length * metadata.dim) cols2 0)
        hm0 hcb hpcols2 idx
      simp only [buildValsAt, hb]
      exact hchar

theorem dbVal_eval_at (clusters : List Cluster) (dim m : Nat)
    (colsList : List (List Nat)) (colIndex : Nat) (c : Nat) (hc : c < colsList.length)
    (idx : Nat)
    (hcol1 : dim * (colIndex + c) ≤ idx % m)
    (hcol2 : idx % m < dim * (colIndex + c) + dim) :
    dbVal clusters dim m colsList colIndex idx
      = stripeVal clusters dim m (dim * (colIndex + c)) (colsList.getD c []) 0 idx := by
  induction colsList generalizing colIndex c with
  | nil => simp at hc
  | cons stripe rest ih =>
    cases c with
    | zero =>
      simp only [Nat.add_zero] at hcol1 hcol2 ⊢
      simp only [List.getD_cons_zero]
      simp only [dbVal]
      cases hsv : stripeVal clusters dim m (dim * colIndex) stripe 0 idx with
      | some v => rfl
      | none =>
        rw [dbVal_none_of_col_lt clusters dim m rest (colIndex + 1) idx (by
          have he : dim * (colIndex + 1) = dim * colIndex + dim := by ring
          omega)]
    | succ c' =>
      have hc' : c' < rest.length := by simpa using hc
      have he1 : dim * (colIndex + (c' + 1)) = dim * (colIndex + 1 + c') := by ring
      have hout : stripeVal clusters dim m (dim * colIndex) stripe 0 idx = none := by
        apply stripeVal_col_outside
        right
        have he2 : dim * (colIndex + (c' + 1)) = dim * colIndex + dim + dim * c' := by ring
        omega
      simp only [dbVal, hout]
      have hgd : (stripe :: rest).getD (c' + 1) [] = rest.getD c' [] := List.getD_cons_succ ..
      rw [hgd, he1]
      exact ih (colIndex + 1) c' hc' (he1 ▸ hcol1) (he1 ▸ hcol2)

theorem stripeVal_eval_at (clusters : List Cluster) (dim m colBase : Nat)
    (stripe : List Nat) (rowBase : Nat) (k : Nat) (hk : k < stripe.length) (idx : Nat)
    (hge : rowBase + rowsBefore clusters stripe k ≤ idx / m)
    (hlt : idx / m < rowBase + rowsBefore clusters stripe k
        + clusterSize clusters (stripe.getD k 0)) :
    stripeVal clusters dim m colBase stripe rowBase idx
      = clusterVal (clusters.getD (stripe.getD k 0) default) dim m
          (rowBase + rowsBefore clusters stripe k) colBase idx := by
  induction stripe generalizing rowBase k with
  | nil => simp at hk
  | cons cid rest ih =>
    have hrb0 : rowsBefore clusters (cid :: rest) 0 = 0 := by
      simp [rowsBefore, stripeWeight]
    cases k with
    | zero =>
      rw [hrb0] at hge hlt
      rw [hrb0]
      simp only [List.getD_cons_zero] at hlt ⊢
      rw [Nat.add_zero] at hge hlt ⊢
      simp only [stripeVal]
      cases hcv : clusterVal (clusters.getD cid default) dim m rowBase colBase idx with
      | some v => rfl
      | none =>
        rw [stripeVal_none_of_lt clusters dim m colBase rest _ idx (by
          have hsz : clusterSize clusters cid = (clusters.getD cid default).numVectors := rfl
          omega)]
    | succ k' =>
      have hk' : k' < rest.length := by simpa using hk
      have h1 : rowsBefore clusters (cid :: rest) (k' + 1)
          = clusterSize clusters cid + rowsBefore clusters rest k' := by
        simp [rowsBefore, stripeWeight, List.take_succ_cons]
      have hsz : clusterSize clusters cid = (clusters.getD cid default).numVectors := rfl
      have hgd : (cid :: rest).getD (k' + 1) 0 = rest.getD k' 0 := List.getD_cons_succ ..
      rw [hgd] at hlt ⊢
      rw [h1] at hge hlt ⊢
      have hcv : clusterVal (clusters.getD cid default) dim m rowBase colBase idx = none := by
        rw [clusterVal, if_neg (by omega)]
      simp only [stripeVal, hcv]
      have hres := ih (rowBase + (clusters.getD cid default).numVectors) k' hk'
        (by omega) (by omega)
      rw [hres]
      have hal : rowBase + (clusters.getD cid default).numVectors + rowsBefore clusters rest k'
          = rowBase + (clusterSize clusters cid + rowsBefore clusters rest k') := by omega
      rw [hal]

/-- Claim C1 (amended): `BuildVectorDatabase` stores each vector component as
the Go conversion `uint64(int8 value)` — the 64-bit two's-complement residue
`value mod 2 ^ 64`, so the component `-1` is stored as `2 ^ 64 - 1` — which
coincides with the zero-extended 8-bit reinterpretation only for
non-negative components. -/
theorem build_vals_signed_mod64 (metadata : Metadata) (clusters : List Cluster)
    (hintSz precBits : Nat) (params : Option LweParams)
    (cols : List (List Nat)) (colSzs : List Nat)
    (l m : Nat) (imap : List (Nat × Nat)) (p : LweParams)
    (hIdx : IndexedClusters clusters) (hdim : 0 < metadata.dim)
    (hpack : packClusters clusters (hintSz * 125) = some (cols, colSzs))
    (hsum : buildSummary metadata clusters hintSz precBits params = .ok (l, m, imap, p)) :
    ∀ c, c < cols.length → ∀ k, k < (cols.getD c []).length →
      ∀ i, i < (clusters.getD ((cols.getD c []).getD k 0) default).numVectors →
      ∀ j, j < metadata.dim →
      buildValsAt metadata clusters hintSz precBits params
          ((rowsBefore clusters (cols.getD c []) k + i) * m + metadata.dim * c + j)
        = u64OfInt8
            ((clusters.getD ((cols.getD c []).getD k 0) default).vectors.getD
              (i * metadata.dim + j) 0) := by
  obtain ⟨hparams, hok, hl, hm, himap, hchar⟩ := build_ok_inversion metadata clusters
    hintSz precBits params cols colSzs l m imap p hIdx hdim hpack hsum
  subst hm
  intro c hc k hk i hi j hj
  have hcm : metadata.dim * c + j < cols.length * metadata.dim := by
    have he : metadata.dim * (c + 1) = metadata.dim * c + metadata.dim := by ring
    have hmono : metadata.dim * (c + 1) ≤ metadata.dim * cols.length :=
      Nat.mul_le_mul_left _ hc
    have hcomm : metadata.dim * cols.length = cols.length * metadata.dim := Nat.mul_comm _ _
    omega
  have hidx : (rowsBefore clusters (cols.getD c []) k + i) * (cols.length * metadata.dim)
        + metadata.dim * c + j
      = dbIndex (rowsBefore clusters (cols.getD c []) k + i) (metadata.dim * c + j)
          (cols.length * metadata.dim) := by
    rw [dbIndex]
    omega
  obtain ⟨hdiv, hmod⟩ := dbIndex_div_mod (rowsBefore clusters (cols.getD c []) k + i)
    (metadata.dim * c + j) (cols.length * metadata.dim) hcm
  rw [← hidx] at hdiv hmod
  rw [hchar]
  have hz : metadata.dim * (0 + c) = metadata.dim * c := by ring
  rw [dbVal_eval_at clusters metadata.dim (cols.length * metadata.dim) cols 0 c hc _
    (by omega) (by omega)]
  have hszk : clusterSize clusters ((cols.getD c []).getD k 0)
      = (clusters.getD ((cols.getD c []).getD k 0) default).numVectors := rfl
  rw [stripeVal_eval_at clusters metadata.dim (cols.length * metadata.dim)
    (metadata.dim * (0 + c)) (cols.getD c []) 0 k hk _
    (by omega) (by omega)]
  rw [clusterVal, if_pos (by
    refine ⟨by omega, by omega, by omega, by omega⟩)]
  have e1 : ((rowsBefore clusters (cols.getD c []) k + i) * (cols.length * metadata.dim)
        + metadata.dim * c + j) / (cols.length * metadata.dim)
        - (0 + rowsBefore clusters (cols.getD c []) k) = i := by
    rw [hdiv]
    omega
  have e2 : ((rowsBefore clusters (cols.getD c []) k + i) * (cols.length * metadata.dim)
        + metadata.dim * c + j) % (cols.length * metadata.dim)
        - metadata.dim * (0 + c) = j := by
    rw [hmod]
    omega
  rw [e1, e2]
  rfl

/-- Claim C8: after `BuildVectorDatabase` populates the `L × M` slot array,
every slot not covered by any cluster's assigned range still holds 0; in
particular every slot of a stripe in rows at or above that stripe's total
row-count is 0. -/
theorem unused_slots_zero (metadata : Metadata) (clusters : List Cluster)
    (hintSz precBits : Nat) (params : Option LweParams)
    (cols : List (List Nat)) (colSzs : List Nat)
    (l m : Nat) (imap : List (Nat × Nat)) (p : LweParams)
    (hIdx : IndexedClusters clusters) (hdim : 0 < metadata.dim)
    (hpack : packClusters clusters (hintSz * 125) = some (cols, colSzs))
    (hsum : buildSummary metadata clusters hintSz precBits params = .ok (l, m, imap, p)) :
    (∀ idx, dbVal clusters metadata.dim m cols 0 idx = none →
        buildValsAt metadata clusters hintSz precBits params idx = 0) ∧
    (∀ c, c < cols.length → ∀ row, colSzs.getD c 0 ≤ row → ∀ j, j < metadata.dim →
        buildValsAt metadata clusters hintSz precBits params
          (row * m + metadata.dim * c + j) = 0) := by
  obtain ⟨hparams, hok, hl, hm, himap, hchar⟩ := build_ok_inversion metadata clusters
    hintSz precBits params cols colSzs l m imap p hIdx hdim hpack hsum
  subst hm
  constructor
  · intro idx hnone
    rw [hchar idx, hnone]
    rfl
  · intro c hc row hrow j hj
    rw [hchar]
    have hcm : metadata.dim * c + j < cols.length * metadata.dim := by
      have he : metadata.dim * (c + 1) = metadata.dim * c + metadata.dim := by ring
      have hmono : metadata.dim * (c + 1) ≤ metadata.dim * cols.length :=
        Nat.mul_le_mul_left _ hc
      have hcomm : metadata.dim * cols.length = cols.length * metadata.dim := Nat.mul_comm _ _
      omega
    have hidx : row * (cols.length * metadata.dim) + metadata.dim * c + j
        = dbIndex row (metadata.dim * c + j) (cols.length * metadata.dim) := by
      rw [dbIndex]
      omega
    obtain ⟨hdiv, hmod⟩ := dbIndex_div_mod row (metadata.dim * c + j)
      (cols.length * metadata.dim) hcm
    rw [← hidx] at hdiv hmod
    have hz : metadata.dim * (0 + c) = metadata.dim * c := by ring
    rw [dbVal_eval_at clusters metadata.dim (cols.length * metadata.dim) cols 0 c hc _
      (by omega) (by omega)]
    have hcons := (pack_conservation_aux ⟨0, 0, 0⟩ clusters (hintSz * 125) 0
      cols colSzs hIdx hpack).1 c hc
    rw [stripeVal_none_of_ge clusters metadata.dim (cols.length * metadata.dim)
      (metadata.dim * (0 + c)) (cols.getD c []) 0 _ (by omega)]
    rfl

/-- Claim C1 counterexample: for the single cluster holding the one
1-dimensional vector `[-1]`, `BuildVectorDatabase` stores slot 0 as
`uint64(int8(-1)) = 2 ^ 64 - 1`, not as the zero-extended 8-bit
reinterpretation `255` the claim asserts. -/
theorem build_vals_not_u8_counterexample :
    buildValsAt negMetadata negClusters 1 3 (some ⟨32768, 64⟩) 0 = 2 ^ 64 - 1 ∧
    ¬(buildValsAt negMetadata negClusters 1 3 (some ⟨32768, 64⟩) 0 = 255) := by
  constructor
  · rfl
  · intro h
    have h2 : buildValsAt negMetadata negClusters 1 3 (some ⟨32768, 64⟩) 0 = 2 ^ 64 - 1 := rfl
    rw [h] at h2
    simp at h2

/-- Witness for C1 at a concrete three-cluster database with negative
components. -/
theorem build_vals_signed_mod64_witness :
    (IndexedClusters exClusters ∧ 0 < exMetadata.dim ∧
      packClusters exClusters (1 * 125) = some ([[0, 1, 2]], [4]) ∧
      buildSummary exMetadata exClusters 1 5 (some exParams)
        = .ok (4, 2, [(0, 0), (1, 4), (2, 6)], exParams)) ∧
    (∀ c, c < [[0, 1, 2]].length → ∀ k, k < ([[0, 1, 2]].getD c []).length →
      ∀ i, i < (exClusters.getD (([[0, 1, 2]].getD c []).getD k 0) default).numVectors →
      ∀ j, j < exMetadata.dim →
      buildValsAt exMetadata exClusters 1 5 (some exParams)
          ((rowsBefore exClusters ([[0, 1, 2]].getD c []) k + i) * 2 + exMetadata.dim * c + j)
        = u64OfInt8
            ((exClusters.getD (([[0, 1, 2]].getD c []).getD k 0) default).vectors.getD
              (i * exMetadata.dim + j) 0)) :=
  ⟨⟨by decide, by decide, by decide, by decide⟩,
    build_vals_signed_mod64 exMetadata exClusters 1 5 (some exParams) [[0, 1, 2]] [4]
      4 2 [(0, 0), (1, 4), (2, 6)] exParams (by decide) (by decide) (by decide) (by decide)⟩

/-- Witness for C2 at a concrete three-cluster input. -/
theorem packClusters_first_fit_decreasing_witness :
    (IndexedClusters exClusters ∧
      packClusters exClusters 125 = some ([[0, 1, 2]], [4])) ∧
    ([[0, 1, 2]] = packClustersSpec exClusters 125 ∧
      [4] = [[0, 1, 2]].map (stripeWeight exClusters) ∧
      sortedIndices exClusters ~ List.range exClusters.length ∧
      DescendingBy (clusterSize exClusters) (sortedIndices exClusters)) :=
  ⟨⟨by decide, by decide⟩,
    packClusters_first_fit_decreasing exClusters 125 [[0, 1, 2]] [4] (by decide) (by decide)⟩

/-- Witness for C3 at a concrete three-cluster input. -/
theorem packClusters_conservation_witness :
    (IndexedClusters exClusters ∧
      packClusters exClusters 125 = some ([[0, 1, 2]], [4])) ∧
    ((∀ c < ([[0, 1, 2]] : List (List Nat)).length,
        ([4] : List Nat).getD c 0 = stripeWeight exClusters ([[0, 1, 2]].getD c [])) ∧
      ([4] : List Nat).sum = (exClusters.map Cluster.numVectors).sum ∧
      (readAllClustersOk exMetadata exClusters 5 →
        ([4] : List Nat).sum = exMetadata.numVectors)) :=
  ⟨⟨by decide, by decide⟩,
    packClusters_conservation exMetadata exClusters 125 5 [[0, 1, 2]] [4]
      (by decide) (by decide)⟩

/-- Witness for C4 at a concrete three-cluster input. -/
theorem packClusters_disjoint_witness :
    ((exClusters.map Cluster.index).Nodup ∧
      packClusters exClusters 125 = some ([[0, 1, 2]], [4])) ∧
    ((∀ cid ∈ exClusters.map Cluster.index,
        ([[0, 1, 2]].map (fun col => col.count cid)).sum = 1) ∧
      (∀ metadata : Metadata, ∀ hintSz precBits : Nat, ∀ params : Option LweParams,
        buildSummary metadata exClusters hintSz precBits params ≠ .error .dupKey)) :=
  ⟨⟨by decide, by decide⟩,
    packClusters_disjoint exClusters 125 [[0, 1, 2]] [4] (by decide) (by decide)⟩

/-- Witness for C5 at a concrete three-cluster database. -/
theorem indexMap_consistency_witness :
    (IndexedClusters exClusters ∧ 0 < exMetadata.dim ∧
      packClusters exClusters (1 * 125) = some ([[0, 1, 2]], [4]) ∧
      buildSummary exMetadata exClusters 1 5 (some exParams)
        = .ok (4, 2, [(0, 0), (1, 4), (2, 6)], exParams)) ∧
    ((∀ c, c < [[0, 1, 2]].length → ∀ k, k < ([[0, 1, 2]].getD c []).length →
      ∃ v, ([(0, 0), (1, 4), (2, 6)] : List (Nat × Nat)).lookup
            (([[0, 1, 2]].getD c []).getD k 0) = some v ∧
        v % 2 / exMetadata.dim = c ∧
        v / 2 + (exClusters.getD (([[0, 1, 2]].getD c []).getD k 0) default).numVectors ≤ 4) ∧
    (∀ params2 : Option LweParams,
      buildSummary exMetadata exClusters 1 5 params2 ≠ .error .rowOverflow)) :=
  ⟨⟨by decide, by decide, by decide, by decide⟩,
    indexMap_consistency exMetadata exClusters 1 5 (some exParams) [[0, 1, 2]] [4]
      4 2 [(0, 0), (1, 4), (2, 6)] exParams (by decide) (by decide) (by decide) (by decide)⟩

/-- Witness for C6 at a concrete three-cluster input with accepted
parameters. -/
theorem build_fails_iff_param_rejection_witness :
    (exClusters ≠ [] ∧ IndexedClusters exClusters) ∧
    (((∃ e, buildSummary exMetadata exClusters 1 5 (some exParams) = .error e)
        ↔ paramsRejected (some exParams) 5) ∧
    (∀ p : LweParams, some exParams = some p →
      ∀ l m imap q, buildSummary exMetadata exClusters 1 5 (some exParams)
          = .ok (l, m, imap, q) → q = p)) :=
  ⟨⟨by decide, by decide⟩,
    build_fails_iff_param_rejection exMetadata exClusters 1 5 (some exParams)
      (by decide) (by decide)⟩

/-- Witness for C8 at a concrete three-stripe database whose stripes end
below `L`. -/
theorem unused_slots_zero_witness :
    (IndexedClusters exClusters ∧ 0 < exMetadata.dim ∧
      packClusters exClusters (0 * 125) = some ([[0], [1], [2]], [2, 1, 1]) ∧
      buildSummary exMetadata exClusters 0 5 (some exParams)
        = .ok (2, 6, [(0, 0), (1, 2), (2, 4)], exParams)) ∧
    ((∀ idx, dbVal exClusters exMetadata.dim 6 [[0], [1], [2]] 0 idx = none →
        buildValsAt exMetadata exClusters 0 5 (some exParams) idx = 0) ∧
    (∀ c, c < ([[0], [1], [2]] : List (List Nat)).length → ∀ row,
        ([2, 1, 1] : List Nat).getD c 0 ≤ row → ∀ j, j < exMetadata.dim →
        buildValsAt exMetadata exClusters 0 5 (some exParams)
          (row * 6 + exMetadata.dim * c + j) = 0)) :=
  ⟨⟨by decide, by decide, by decide, by decide⟩,
    unused_slots_zero exMetadata exClusters 0 5 (some exParams) [[0], [1], [2]] [2, 1, 1]
      2 6 [(0, 0), (1, 2), (2, 4)] exParams (by decide) (by decide) (by decide) (by decide)⟩

/-- Witness for C10 at a concrete three-cluster input. -/
theorem packClusters_empty_none_and_max_head_witness :
    (exClusters ≠ [] ∧ IndexedClusters exClusters) ∧
    (packClusters [] 125 = none ∧
    ∃ cols colSzs, packClusters exClusters 125 = some (cols, colSzs) ∧ cols ≠ [] ∧
      ∃ cid, (cols.headD []).headD 0 = cid ∧
        ∀ cl ∈ exClusters, cl.numVectors ≤ (exClusters.getD cid default).numVectors) :=
  ⟨⟨by decide, by decide⟩,
    packClusters_empty_none_and_max_head exClusters 125 (by decide) (by decide)⟩
